import Mathlib

/-!
# Token launchpad: the issuance workflow of `src/tokenTransaction.jsx`

A shallow embedding of `handleSubmit` (the token issuance sequence of the
`TokenCreationForm` component) and of the binary encoding of the metadata
arguments, together with the properties the written specification states
about them.

* Bytes are natural numbers below 256, buffers are lists of bytes.
* Strings are sequences of Unicode scalar values (`String`).
* The external collaborators (ledger RPC, token program client, pinning
  client, file reader, wallet) are a record of response functions, `Env`; a
  rejected promise or a thrown error is the message of the error.
* Every call the handler makes is recorded, with its arguments, in a trace of
  events, together with the updates of the component state and the messages to
  the console and the user. `e.preventDefault()` has no effect on any of these
  and is left out.
* The `onloadend` callback of the image read is a task of the event loop: the
  whole submission, `issuance`, interleaves it with the handler from the first
  `await` that follows the start of the read, in an order given by a schedule.
-/

namespace TokenLaunchpad

/-! ## Buffers and UTF-8 -/

/-- The UTF-8 bytes of one Unicode scalar value (`Buffer.from(str, "utf8")`,
one character at a time). -/
def utf8EncodeChar (c : Char) : List Nat :=
  let v := c.toNat
  if v < 0x80 then [v]
  else if v < 0x800 then [0xC0 + v / 64, 0x80 + v % 64]
  else if v < 0x10000 then [0xE0 + v / 4096, 0x80 + v / 64 % 64, 0x80 + v % 64]
  else [0xF0 + v / 262144, 0x80 + v / 4096 % 64, 0x80 + v / 64 % 64, 0x80 + v % 64]

/-- The UTF-8 bytes of a sequence of characters. -/
def utf8EncodeChars : List Char → List Nat
  | [] => []
  | c :: cs => utf8EncodeChar c ++ utf8EncodeChars cs

/-- The UTF-8 bytes of a string: `Buffer.from(str, "utf8")`. -/
def utf8Encode (s : String) : List Nat := utf8EncodeChars s.toList

/-- A continuation byte `10xxxxxx`. -/
def isCont (b : Nat) : Bool := decide (0x80 ≤ b) && decide (b < 0xC0)

/-- The character of a decoded code point, when it is a Unicode scalar value. -/
def scalar? (v : Nat) : Option Char :=
  if v.isValidChar then some (Char.ofNat v) else none

/-- Strict decoding of the first UTF-8 sequence of a buffer (a decoder created
with `fatal: true`): overlong forms, surrogates, code points above U+10FFFF and
truncated sequences are rejected. Returns the character and the bytes left. -/
def utf8DecodeChar : List Nat → Option (Char × List Nat)
  | [] => none
  | b0 :: rest =>
    if b0 < 0x80 then (scalar? b0).map (fun c => (c, rest))
    else if b0 < 0xC0 then none
    else if b0 < 0xE0 then
      match rest with
      | b1 :: rest1 =>
        let v := (b0 - 0xC0) * 64 + (b1 - 0x80)
        if isCont b1 && decide (0x80 ≤ v) then (scalar? v).map (fun c => (c, rest1)) else none
      | _ => none
    else if b0 < 0xF0 then
      match rest with
      | b1 :: b2 :: rest2 =>
        let v := (b0 - 0xE0) * 4096 + (b1 - 0x80) * 64 + (b2 - 0x80)
        if isCont b1 && isCont b2 && decide (0x800 ≤ v) then
          (scalar? v).map (fun c => (c, rest2))
        else none
      | _ => none
    else if b0 < 0xF8 then
      match rest with
      | b1 :: b2 :: b3 :: rest3 =>
        let v := (b0 - 0xF0) * 262144 + (b1 - 0x80) * 4096 + (b2 - 0x80) * 64 + (b3 - 0x80)
        if isCont b1 && isCont b2 && isCont b3 && decide (0x10000 ≤ v) then
          (scalar? v).map (fun c => (c, rest3))
        else none
      | _ => none
    else none

/-- Strict UTF-8 decoding of a whole buffer; `fuel` bounds the number of
characters decoded (the buffer length always suffices). -/
def utf8DecodeAux : Nat → List Nat → Option (List Char)
  | _, [] => some []
  | 0, _ :: _ => none
  | fuel + 1, b :: bs =>
    match utf8DecodeChar (b :: bs) with
    | none => none
    | some (c, rest) => (utf8DecodeAux fuel rest).map (fun cs => c :: cs)

/-- Strict UTF-8 decoding of a buffer into a string (`textDecoder.decode(buf)`). -/
def utf8Decode (bytes : List Nat) : Option String :=
  (utf8DecodeAux bytes.length bytes).map String.mk

/-! ## Public keys -/

/-- A public key of the ledger network, identified by the bytes `toBuffer()`
returns (32 of them for a well-formed key). -/
structure PublicKey where
  toBuffer : List Nat
deriving DecidableEq, Repr

/-- The number of bytes of a public key. -/
def PUBLIC_KEY_LENGTH : Nat := 32

/-! ## The Borsh encoding of the metadata arguments -/

/-- Little-endian bytes of `v`, `n` of them (the low `8 * n` bits). -/
def leBytes : Nat → Nat → List Nat
  | 0, _ => []
  | n + 1, v => v % 256 :: leBytes n (v / 256)

/-- The value of a little-endian byte sequence. -/
def leValue : List Nat → Nat
  | [] => 0
  | b :: bs => b + 256 * leValue bs

/-- The field types a schema can name: the types of `METADATA_SCHEMA`
(`"string"`, `"u16"`, `"pubkey"`, `[T]` and `{ kind: "option", type: T }`)
and the unsigned integers the writer uses for tags and length prefixes. -/
inductive FieldType where
  | string
  | u8
  | u16
  | u32
  | pubkey
  | array (elem : FieldType)
  | option (type : FieldType)
deriving DecidableEq, Repr

/-- The values a field of a given type holds. -/
def FieldType.Val : FieldType → Type
  | .string => String
  | .u8 => Nat
  | .u16 => Nat
  | .u32 => Nat
  | .pubkey => PublicKey
  | .array t => List t.Val
  | .option t => Option t.Val

/-- Modelled from the spec: the writer of the `borsh` package (`serialize` is
imported from it, its code is not part of the repository). An unsigned integer
of `n` bytes is written little-endian and a value that does not fit is an
error, never a truncated payload (spec 4.6). -/
def writeUInt (n : Nat) (v : Nat) : Except String (List Nat) :=
  if v < 256 ^ n then .ok (leBytes n v) else .error "value out of range"

/-- Modelled from the spec: reading an unsigned integer of `n` bytes,
little-endian; fails when fewer than `n` bytes are left. Returns the value and
the bytes left. -/
def readUInt (n : Nat) (buf : List Nat) : Except String (Nat × List Nat) :=
  if n ≤ buf.length then .ok (leValue (buf.take n), buf.drop n)
  else .error "unexpected end of buffer"

/-- Modelled from the spec: a string is written as the u32 little-endian count
of its UTF-8 bytes followed by those bytes ("UTF-8 length-prefixed"). -/
def writeString (s : String) : Except String (List Nat) :=
  match writeUInt 4 (utf8Encode s).length with
  | .error e => .error e
  | .ok len => .ok (len ++ utf8Encode s)

/-- Modelled from the spec: reading a length-prefixed UTF-8 string. -/
def readString (buf : List Nat) : Except String (String × List Nat) :=
  match readUInt 4 buf with
  | .error e => .error e
  | .ok (len, rest) =>
    if len ≤ rest.length then
      match utf8Decode (rest.take len) with
      | some s => .ok (s, rest.drop len)
      | none => .error "invalid UTF-8 string"
    else .error "unexpected end of buffer"

/-- Writing the items of a sequence one after the other. -/
def writeItems {α : Type} (f : α → Except String (List Nat)) : List α → Except String (List Nat)
  | [] => .ok []
  | x :: xs =>
    match f x with
    | .error e => .error e
    | .ok b =>
      match writeItems f xs with
      | .error e => .error e
      | .ok bs => .ok (b ++ bs)

/-- Reading `n` items one after the other. -/
def readItems {α : Type} (f : List Nat → Except String (α × List Nat)) :
    Nat → List Nat → Except String (List α × List Nat)
  | 0, buf => .ok ([], buf)
  | n + 1, buf =>
    match f buf with
    | .error e => .error e
    | .ok (x, rest) =>
      match readItems f n rest with
      | .error e => .error e
      | .ok (xs, rest1) => .ok (x :: xs, rest1)

/-- Modelled from the spec: `serializeField` of the `borsh` package, by the type
of the field. A public key is its 32 bytes, a sequence is its u32 count
followed by its items, an optional value is the tag byte 0 when absent
(`null`) and the tag byte 1 followed by the value when present. -/
def serializeField : (t : FieldType) → t.Val → Except String (List Nat)
  | .string, s => writeString s
  | .u8, v => writeUInt 1 v
  | .u16, v => writeUInt 2 v
  | .u32, v => writeUInt 4 v
  | .pubkey, k =>
    if k.toBuffer.length = PUBLIC_KEY_LENGTH ∧ ∀ b ∈ k.toBuffer, b < 256 then .ok k.toBuffer
    else .error "invalid public key"
  | .array t, xs =>
    match writeUInt 4 (List.length (α := t.Val) xs) with
    | .error e => .error e
    | .ok len =>
      match writeItems (serializeField t) xs with
      | .error e => .error e
      | .ok bs => .ok (len ++ bs)
  | .option t, v =>
    match (v : Option t.Val) with
    | none => writeUInt 1 0
    | some x =>
      match writeUInt 1 1, serializeField t x with
      | .ok tag, .ok b => .ok (tag ++ b)
      | .error e, _ => .error e
      | _, .error e => .error e

/-- Modelled from the spec: `deserializeField` of the `borsh` package, the
inverse of `serializeField`. Returns the value and the bytes left. -/
def deserializeField : (t : FieldType) → List Nat → Except String (t.Val × List Nat)
  | .string, buf => readString buf
  | .u8, buf => readUInt 1 buf
  | .u16, buf => readUInt 2 buf
  | .u32, buf => readUInt 4 buf
  | .pubkey, buf =>
    if PUBLIC_KEY_LENGTH ≤ buf.length then
      .ok (⟨buf.take PUBLIC_KEY_LENGTH⟩, buf.drop PUBLIC_KEY_LENGTH)
    else .error "unexpected end of buffer"
  | .array t, buf =>
    match readUInt 4 buf with
    | .error e => .error e
    | .ok (len, rest) => readItems (deserializeField t) len rest
  | .option t, buf =>
    match readUInt 1 buf with
    | .error e => .error e
    | .ok (tag, rest) =>
      if tag = 0 then .ok ((none : Option t.Val), rest)
      else
        match deserializeField t rest with
        | .error e => .error e
        | .ok (x, rest1) => .ok ((some x : Option t.Val), rest1)

/-- The arguments of the metadata-creation instruction: `CreateMetadataArgs`
with the properties `handleSubmit` gives it. -/
structure CreateMetadataArgs where
  name : String
  symbol : String
  uri : String
  sellerFeeBasisPoints : Nat
  creators : Option (List PublicKey)
deriving DecidableEq, Repr

/-- One field of a struct schema: `[fieldName, fieldType]`, with the property
access `obj[fieldName]` the serializer performs for it. -/
structure Field (σ : Type) where
  fieldName : String
  fieldType : FieldType
  get : σ → fieldType.Val

/-- The schema of `CreateMetadataArgs`: `METADATA_SCHEMA`, a struct with the
fields name, symbol, uri, sellerFeeBasisPoints and creators, in this order. -/
def METADATA_SCHEMA : List (Field CreateMetadataArgs) :=
  [⟨"name", .string, fun o => o.name⟩,
   ⟨"symbol", .string, fun o => o.symbol⟩,
   ⟨"uri", .string, fun o => o.uri⟩,
   ⟨"sellerFeeBasisPoints", .u16, fun o => o.sellerFeeBasisPoints⟩,
   ⟨"creators", .option (.array .pubkey), fun o => o.creators⟩]

/-- Modelled from the spec: `serialize(schema, obj)` of the `borsh` package for
a struct schema: the fields are written in schema order; the first field that
cannot be written fails the whole encoding. -/
def serialize {σ : Type} (schema : List (Field σ)) (obj : σ) : Except String (List Nat) :=
  writeItems (fun f => serializeField f.fieldType (f.get obj)) schema

/-- Modelled from the spec: decoding a `CreateMetadataArgs` under
`METADATA_SCHEMA`: the fields are read in schema order and bytes left after the
last field are an error. -/
def deserialize (buf : List Nat) : Except String CreateMetadataArgs :=
  match deserializeField .string buf with
  | .error e => .error e
  | .ok (name, r1) =>
  match deserializeField .string r1 with
  | .error e => .error e
  | .ok (symbol, r2) =>
  match deserializeField .string r2 with
  | .error e => .error e
  | .ok (uri, r3) =>
  match deserializeField .u16 r3 with
  | .error e => .error e
  | .ok (fee, r4) =>
  match deserializeField (.option (.array .pubkey)) r4 with
  | .error e => .error e
  | .ok (creators, r5) =>
    if r5 = [] then
      .ok { name := name, symbol := symbol, uri := uri,
            sellerFeeBasisPoints := fee, creators := creators }
    else .error "unexpected bytes after deserialized data"

/-! ## The collaborators of the handler -/

/-- The state of the notification bar (`state` of the component). -/
structure SnackState where
  isOpen : Bool
  message : String
  vertical : String
  horizontal : String
deriving DecidableEq, Repr

/-- The image file chosen in the form (`logo`), identified by its name. -/
structure File where
  name : String
deriving DecidableEq, Repr

/-- The descriptive document `metadata` that is pinned as JSON. -/
structure Metadata where
  name : String
  symbol : String
  description : String
  image : String
deriving DecidableEq, Repr

/-- The content handed to `ipfsClient.add`: the image bytes
(`Buffer.from(reader.result)`) or the JSON text of the descriptive document
(`JSON.stringify(metadata)`, kept as the document it is the text of). -/
inductive Content where
  | buffer (bytes : List Nat)
  | json (metadata : Metadata)
deriving DecidableEq, Repr

/-- One account reference of an instruction. -/
structure AccountMeta where
  pubkey : PublicKey
  isSigner : Bool
  isWritable : Bool
deriving DecidableEq, Repr

/-- An instruction: `new TransactionInstruction({ keys, programId, data })`. -/
structure TransactionInstruction where
  keys : List AccountMeta
  programId : PublicKey
  data : List Nat
deriving DecidableEq, Repr

/-- A transaction: the instructions added to it, in order. -/
structure Transaction where
  instructions : List TransactionInstruction
deriving DecidableEq, Repr

/-- The component state and props `handleSubmit` reads: the wallet's
`publicKey` (`none` for `null`) and the form fields. -/
structure Form where
  publicKey : Option PublicKey
  name : String
  symbol : String
  decimals : Nat
  supply : Nat
  description : String
  freezeAuthority : String
  logo : Option File
deriving DecidableEq, Repr

/-- The external collaborators, as the responses they give to each call: the
ledger RPC connection, the token program client (`splToken`), the public key
constructor, the file reader, the pinning client and the wallet. A rejected
promise or a thrown error is `.error` with the message of the error.
`readAsArrayBuffer` gives the bytes `Buffer.from(reader.result)` holds, or the
error it throws on the result of a failed read; `ipfsAdd` gives the `path` of
the result; what `mintTo` and `confirmTransaction` return is not used. -/
structure Env where
  getBalance : PublicKey → Except String Nat
  newPublicKey : String → Except String PublicKey
  createMint : PublicKey → PublicKey → Option PublicKey → Nat → Except String PublicKey
  createAccount : PublicKey → PublicKey → PublicKey → Except String PublicKey
  mintTo : PublicKey → PublicKey → PublicKey → PublicKey → Nat → Except String Unit
  readAsArrayBuffer : File → Except String (List Nat)
  ipfsAdd : Content → Except String String
  findProgramAddress : List (List Nat) → PublicKey → Except String (PublicKey × Nat)
  sendTransaction : Transaction → Except String String
  confirmTransaction : String → String → Except String Unit

/-- What the handler does to the outside, in order: the calls to the
collaborators with their arguments (the `connection` argument, always the
same, is left out), the updates of the component state, and the messages to
the console and the user. -/
inductive Event where
  | setState (s : SnackState)
  | setIsLoading (b : Bool)
  | getBalance (publicKey : PublicKey)
  | createMint (payer mintAuthority : PublicKey) (freezeAuthority : Option PublicKey)
      (decimals : Nat)
  | createAccount (payer mint owner : PublicKey)
  | mintTo (payer mint destination authority : PublicKey) (amount : Nat)
  | readAsArrayBuffer (logo : File)
  | ipfsAdd (content : Content)
  | findProgramAddress (seeds : List (List Nat)) (programId : PublicKey)
  | sendTransaction (transaction : Transaction)
  | confirmTransaction (signature commitment : String)
  | consoleLog (args : List String)
  | consoleError (args : List String)
  | alert (text : String)
deriving DecidableEq, Repr

/-! ## Constants -/

/-- The constant `LAMPORTS_PER_SOL` of the ledger client library. -/
def LAMPORTS_PER_SOL : Nat := 1000000000

/-- The value of `0.02 * LAMPORTS_PER_SOL`: the double nearest to 0.02 times
1e9 rounds to exactly 20000000. -/
def requiredBalance : Nat := 2 * LAMPORTS_PER_SOL / 100

/-- The address `metaqbxxUerdq28cj1RbAWkYQm3ybzjb6a8bt518x1s`, as its bytes. -/
def TOKEN_METADATA_PROGRAM_ID : PublicKey :=
  ⟨[11, 112, 101, 177, 227, 209, 124, 69, 56, 157, 82, 127, 107, 4, 195, 205,
    88, 184, 108, 115, 26, 160, 253, 181, 73, 182, 209, 188, 3, 248, 41, 70]⟩

/-- The address of the system program, `SystemProgram.programId`
(`11111111111111111111111111111111`): 32 zero bytes. -/
def SystemProgram.programId : PublicKey := ⟨List.replicate 32 0⟩

/-- The base URL template of the pinning gateway. -/
def ipfsUrl (path : String) : String := "https://ipfs.infura.io/ipfs/" ++ path

/-- The notification raised when no wallet is connected. -/
def connectWalletState : SnackState :=
  { isOpen := true, message := "Please connect your wallet first.",
    vertical := "top", horizontal := "center" }

/-- The notification raised when the balance is below `requiredBalance`;
`requiredBalance / LAMPORTS_PER_SOL` prints as `0.02`. -/
def insufficientBalanceState : SnackState :=
  { isOpen := true,
    message := "Insufficient SOL balance. You need at least 0.02 SOL to create a token.",
    vertical := "top", horizontal := "center" }

/-- The notification raised by the `catch` block: `error.message`. -/
def errorState (message : String) : SnackState :=
  { isOpen := true, message := message, vertical := "top", horizontal := "center" }

/-! ## The handler -/

/-- How the `try` block ends: it runs to its end, it leaves the handler with
`return`, or it throws an error with the given message. -/
inductive Completion where
  | normal
  | returned
  | thrown (message : String)
deriving DecidableEq, Repr

/-- The events `evs` followed by those of the rest of the block. -/
def after {α : Type} (evs : List Event) (r : List Event × α) : List Event × α :=
  (evs ++ r.1, r.2)

/-- The freeze authority key:
`freezeAuthority ? new PublicKey(freezeAuthority) : null`. -/
def freezeAuthorityKey (env : Env) (form : Form) : Except String (Option PublicKey) :=
  if form.freezeAuthority = "" then .ok none
  else
    match env.newPublicKey form.freezeAuthority with
    | .error e => .error e
    | .ok key => .ok (some key)

/-- The seeds of the metadata account address. -/
def metadataSeeds (mint : PublicKey) : List (List Nat) :=
  [utf8Encode "metadata", TOKEN_METADATA_PROGRAM_ID.toBuffer, mint.toBuffer]

/-- The arguments `metadataArgs` the handler builds. -/
def metadataArgs (name symbol metadataUri : String) : CreateMetadataArgs :=
  { name := name, symbol := symbol, uri := metadataUri,
    sellerFeeBasisPoints := 500, creators := none }

/-- The instruction `createMetadataInstruction`. -/
def createMetadataInstruction (metadataAccount mint publicKey : PublicKey)
    (metadataBuffer : List Nat) : TransactionInstruction :=
  { keys :=
      [{ pubkey := metadataAccount, isSigner := false, isWritable := true },
       { pubkey := mint, isSigner := false, isWritable := true },
       { pubkey := publicKey, isSigner := true, isWritable := false },
       { pubkey := SystemProgram.programId, isSigner := false, isWritable := false }],
    programId := TOKEN_METADATA_PROGRAM_ID,
    data := metadataBuffer }

/-- The `try` block of `handleSubmit` for a connected wallet: the events it
produces and how it ends. Every awaited call is recorded when it is made and
its response decides whether the block goes on. The image read is only
started here (`reader.readAsArrayBuffer(logo)`): its `onloadend` callback
cannot run before the handler next suspends, so `imageUrl` still holds the
empty string when the document is built from it. -/
def tryBlock (env : Env) (form : Form) (publicKey : PublicKey) : List Event × Completion :=
  after [.getBalance publicKey] <|
  match env.getBalance publicKey with
  | .error e => ([], .thrown e)
  | .ok balance =>
  if balance < requiredBalance then
    ([.setState insufficientBalanceState, .setIsLoading false], .returned)
  else
  match freezeAuthorityKey env form with
  | .error e => ([], .thrown e)
  | .ok freezeAuthorityKey =>
  after [.createMint publicKey publicKey freezeAuthorityKey form.decimals] <|
  match env.createMint publicKey publicKey freezeAuthorityKey form.decimals with
  | .error e => ([], .thrown e)
  | .ok mint =>
  after [.createAccount publicKey mint publicKey] <|
  match env.createAccount publicKey mint publicKey with
  | .error e => ([], .thrown e)
  | .ok tokenAccount =>
  after [.mintTo publicKey mint tokenAccount publicKey form.supply] <|
  match env.mintTo publicKey mint tokenAccount publicKey form.supply with
  | .error e => ([], .thrown e)
  | .ok _ =>
  let imageUrl := ""
  after (match form.logo with
         | some logo => [.readAsArrayBuffer logo]
         | none => []) <|
  let metadata : Metadata :=
    { name := form.name, symbol := form.symbol,
      description := form.description, image := imageUrl }
  after [.ipfsAdd (.json metadata)] <|
  match env.ipfsAdd (.json metadata) with
  | .error e => ([], .thrown e)
  | .ok path =>
  let metadataUri := ipfsUrl path
  after [.consoleLog ["Metadata uploaded to IPFS:", metadataUri],
         .findProgramAddress (metadataSeeds mint) TOKEN_METADATA_PROGRAM_ID] <|
  match env.findProgramAddress (metadataSeeds mint) TOKEN_METADATA_PROGRAM_ID with
  | .error e => ([], .thrown e)
  | .ok metadataAccount =>
  match serialize METADATA_SCHEMA (metadataArgs form.name form.symbol metadataUri) with
  | .error e => ([], .thrown e)
  | .ok metadataBuffer =>
  let transaction : Transaction :=
    { instructions :=
        [createMetadataInstruction metadataAccount.1 mint publicKey metadataBuffer] }
  after [.sendTransaction transaction] <|
  match env.sendTransaction transaction with
  | .error e => ([], .thrown e)
  | .ok signature =>
  after [.confirmTransaction signature "confirmed"] <|
  match env.confirmTransaction signature "confirmed" with
  | .error e => ([], .thrown e)
  | .ok _ =>
    ([.consoleLog ["Metadata created! Transaction signature: " ++ signature],
      .alert ("Metadata created! Transaction signature: " ++ signature)], .normal)

/-- The handler `handleSubmit`: the events of one submission, in order. Without
a wallet it only raises a notification; otherwise it sets the busy flag, runs
the `try` block, reports a thrown error in the `catch` block and clears the busy
flag (the early `return` of the balance check has already cleared it). -/
def handleSubmit (env : Env) (form : Form) : List Event :=
  match form.publicKey with
  | none => [.setState connectWalletState]
  | some publicKey =>
    let r := tryBlock env form publicKey
    [.setIsLoading true] ++ r.1 ++
      (match r.2 with
       | .returned => []
       | .normal => [.setIsLoading false]
       | .thrown message =>
         [.consoleError ["Error creating token:", message],
          .setState (errorState message),
          .setIsLoading false])

/-- The `onloadend` callback of the image read: the bytes read are uploaded and
the resulting URL is assigned to `imageUrl`; an error is caught and logged.
Returns the events and the value assigned to `imageUrl`, if any. -/
def onloadend (env : Env) (logo : File) : List Event × Option String :=
  match env.readAsArrayBuffer logo with
  | .error e => ([.consoleError ["Error uploading image to IPFS:", e]], none)
  | .ok buffer =>
  after [.ipfsAdd (.buffer buffer)] <|
  match env.ipfsAdd (.buffer buffer) with
  | .error e => ([.consoleError ["Error uploading image to IPFS:", e]], none)
  | .ok path =>
    ([.consoleLog ["Image uploaded to IPFS:", ipfsUrl path]], some (ipfsUrl path))

/-! ## The event loop -/

/-- The image read a run of the handler has started, if any. -/
def pendingRead : List Event → Option File
  | [] => none
  | .readAsArrayBuffer logo :: _ => some logo
  | _ :: evs => pendingRead evs

/-- The upload of the JSON document. -/
def isPinJson : Event → Bool
  | .ipfsAdd (.json _) => true
  | _ => false

/-- A trace cut right after its first event satisfying `p` (everything, and
nothing after, when there is none). -/
def splitAfter (p : Event → Bool) : List Event → List Event × List Event
  | [] => ([], [])
  | e :: es =>
    if p e then ([e], es)
    else ((e :: (splitAfter p es).1), (splitAfter p es).2)

/-- An interleaving of the rest of the handler with the callback, chosen by
the schedule: `true` lets the handler go on, `false` the callback. When the
schedule is used up the handler finishes first. -/
def merge : List Bool → List Event → List Event → List Event
  | _, [], cb => cb
  | _, m :: main, [] => m :: main
  | [], m :: main, c :: cb => (m :: main) ++ (c :: cb)
  | true :: sched, m :: main, c :: cb => m :: merge sched main (c :: cb)
  | false :: sched, m :: main, c :: cb => c :: merge sched (m :: main) cb

/-- One whole submission: the handler together with the `onloadend` callback
of the image read it started. The callback is a task of the event loop: it
runs only once the handler has suspended, which first happens at the `await`
of the JSON upload that follows `readAsArrayBuffer`; from there on its events
interleave with the handler's as the schedule says. -/
def issuance (env : Env) (form : Form) (sched : List Bool) : List Event :=
  match pendingRead (handleSubmit env form) with
  | none => handleSubmit env form
  | some logo =>
    (splitAfter isPinJson (handleSubmit env form)).1 ++
      merge sched (splitAfter isPinJson (handleSubmit env form)).2 (onloadend env logo).1

/-! ## Observations on a trace -/

/-- The kinds of calls to a collaborator. -/
inductive CallKind where
  | getBalance
  | createMint
  | createAccount
  | mintTo
  | readAsArrayBuffer
  | ipfsAddImage
  | ipfsAddJson
  | findProgramAddress
  | sendTransaction
  | confirmTransaction
deriving DecidableEq, Repr

/-- The kind of call an event is, if it is a call to a collaborator. -/
def callKind : Event → Option CallKind
  | .getBalance _ => some .getBalance
  | .createMint _ _ _ _ => some .createMint
  | .createAccount _ _ _ => some .createAccount
  | .mintTo _ _ _ _ _ => some .mintTo
  | .readAsArrayBuffer _ => some .readAsArrayBuffer
  | .ipfsAdd (.buffer _) => some .ipfsAddImage
  | .ipfsAdd (.json _) => some .ipfsAddJson
  | .findProgramAddress _ _ => some .findProgramAddress
  | .sendTransaction _ => some .sendTransaction
  | .confirmTransaction _ _ => some .confirmTransaction
  | _ => none

/-- The calls to collaborators of a trace, in order. -/
def calls (trace : List Event) : List Event :=
  trace.filter (fun e => (callKind e).isSome)

/-- The kinds of the calls of a trace, in order. -/
def callKinds (trace : List Event) : List CallKind :=
  trace.filterMap callKind

/-- The notifications raised in a trace, in order. -/
def notifications (trace : List Event) : List SnackState :=
  trace.filterMap (fun e => match e with
    | .setState s => some s
    | _ => none)

/-- The value of `isLoading` after a trace, from its value before. -/
def isLoadingAfter (isLoading : Bool) : List Event → Bool
  | [] => isLoading
  | .setIsLoading b :: evs => isLoadingAfter b evs
  | _ :: evs => isLoadingAfter isLoading evs

/-- Whether an `Except` value is an error. -/
def isError {α : Type} : Except String α → Bool
  | .error _ => true
  | .ok _ => false

/-- Whether the collaborator fails the call an event records. -/
def failed (env : Env) : Event → Bool
  | .getBalance k => isError (env.getBalance k)
  | .createMint p a f d => isError (env.createMint p a f d)
  | .createAccount p m o => isError (env.createAccount p m o)
  | .mintTo p m t a n => isError (env.mintTo p m t a n)
  | .readAsArrayBuffer f => isError (env.readAsArrayBuffer f)
  | .ipfsAdd c => isError (env.ipfsAdd c)
  | .findProgramAddress s p => isError (env.findProgramAddress s p)
  | .sendTransaction t => isError (env.sendTransaction t)
  | .confirmTransaction s c => isError (env.confirmTransaction s c)
  | _ => false

/-- The calls of one kind in a trace, in order. -/
def callsOfKind (k : CallKind) (trace : List Event) : List Event :=
  trace.filter (fun e => callKind e == some k)

/-- The transactions handed to the wallet in a trace, in order. -/
def sentTransactions (trace : List Event) : List Transaction :=
  trace.filterMap (fun e => match e with
    | .sendTransaction t => some t
    | _ => none)

/-- The four bytes of a 32-bit length prefix, least significant first, as the
wire format words it. -/
def u32le (n : Nat) : List Nat :=
  [n % 256, n / 256 % 256, n / 65536 % 256, n / 16777216 % 256]

/-- The full sequence of calls of a submission without an image. -/
def fullSequence : List CallKind :=
  [.getBalance, .createMint, .createAccount, .mintTo, .ipfsAddJson,
   .findProgramAddress, .sendTransaction, .confirmTransaction]

/-! ## The paths through the handler

The states of the issuance (spec 4.8) as conditions on the responses of the
collaborators, the events of the handler up to each of its calls, and the
twelve paths the handler can take. -/

/-- The descriptive document the handler pins: its image field is the value
`imageUrl` has when the document is built. -/
def document (form : Form) : Metadata :=
  { name := form.name, symbol := form.symbol, description := form.description, image := "" }

/-- The transaction the handler submits: the one metadata instruction. -/
def metadataTransaction (metadataAccount mint publicKey : PublicKey)
    (metadataBuffer : List Nat) : Transaction :=
  { instructions := [createMetadataInstruction metadataAccount mint publicKey metadataBuffer] }

/-- The balance was read and is not below `requiredBalance`. -/
def PreflightChecked (env : Env) (pk : PublicKey) : Prop :=
  ∃ b, env.getBalance pk = .ok b ∧ ¬ b < requiredBalance

/-- The freeze authority was parsed and the mint `mint` created. -/
def AssetProvisioned (env : Env) (form : Form) (pk : PublicKey) (fk : Option PublicKey)
    (mint : PublicKey) : Prop :=
  PreflightChecked env pk ∧ freezeAuthorityKey env form = .ok fk ∧
    env.createMint pk pk fk form.decimals = .ok mint

/-- The holding account `acct` was created and the supply minted into it. -/
def SupplyIssued (env : Env) (form : Form) (pk : PublicKey) (fk : Option PublicKey)
    (mint acct : PublicKey) : Prop :=
  AssetProvisioned env form pk fk mint ∧ env.createAccount pk mint pk = .ok acct ∧
    env.mintTo pk mint acct pk form.supply = .ok ()

/-- The descriptive document was pinned at `path`. -/
def ContentPinned (env : Env) (form : Form) (pk : PublicKey) (fk : Option PublicKey)
    (mint acct : PublicKey) (path : String) : Prop :=
  SupplyIssued env form pk fk mint acct ∧ env.ipfsAdd (.json (document form)) = .ok path

/-- The metadata address `addr` was derived and the arguments encoded as `buf`. -/
def InstructionBuilt (env : Env) (form : Form) (pk : PublicKey) (fk : Option PublicKey)
    (mint acct : PublicKey) (path : String) (addr : PublicKey × Nat) (buf : List Nat) : Prop :=
  ContentPinned env form pk fk mint acct path ∧
    env.findProgramAddress (metadataSeeds mint) TOKEN_METADATA_PROGRAM_ID = .ok addr ∧
    serialize METADATA_SCHEMA (metadataArgs form.name form.symbol (ipfsUrl path)) = .ok buf

/-- The events of the `catch` block and the end of the handler after it. -/
def catchEvents (message : String) : List Event :=
  [.consoleError ["Error creating token:", message], .setState (errorState message),
   .setIsLoading false]

/-- The events of the handler up to the balance query. -/
def upToBalance (pk : PublicKey) : List Event :=
  [.setIsLoading true, .getBalance pk]

/-- The events of the handler up to the creation of the mint. -/
def upToMint (form : Form) (pk : PublicKey) (fk : Option PublicKey) : List Event :=
  upToBalance pk ++ [.createMint pk pk fk form.decimals]

/-- The events of the handler up to the creation of the holding account. -/
def upToAccount (form : Form) (pk : PublicKey) (fk : Option PublicKey) (mint : PublicKey) :
    List Event :=
  upToMint form pk fk ++ [.createAccount pk mint pk]

/-- The events of the handler up to the minting of the supply. -/
def upToMintTo (form : Form) (pk : PublicKey) (fk : Option PublicKey) (mint acct : PublicKey) :
    List Event :=
  upToAccount form pk fk mint ++ [.mintTo pk mint acct pk form.supply]

/-- The start of the image read, when the form holds an image. -/
def readEvents (form : Form) : List Event :=
  match form.logo with
  | some logo => [.readAsArrayBuffer logo]
  | none => []

/-- The events of the handler up to the upload of the document. -/
def upToPin (form : Form) (pk : PublicKey) (fk : Option PublicKey) (mint acct : PublicKey) :
    List Event :=
  upToMintTo form pk fk mint acct ++ readEvents form ++ [.ipfsAdd (.json (document form))]

/-- The events of the handler up to the derivation of the metadata address. -/
def upToDerive (form : Form) (pk : PublicKey) (fk : Option PublicKey) (mint acct : PublicKey)
    (path : String) : List Event :=
  upToPin form pk fk mint acct ++
    [.consoleLog ["Metadata uploaded to IPFS:", ipfsUrl path],
     .findProgramAddress (metadataSeeds mint) TOKEN_METADATA_PROGRAM_ID]

/-- The events of the handler up to the submission of the transaction. -/
def upToSend (form : Form) (pk : PublicKey) (fk : Option PublicKey) (mint acct : PublicKey)
    (path : String) (addr : PublicKey × Nat) (buf : List Nat) : List Event :=
  upToDerive form pk fk mint acct path ++
    [.sendTransaction (metadataTransaction addr.1 mint pk buf)]

/-- The events of the handler up to the confirmation of the transaction. -/
def upToConfirm (form : Form) (pk : PublicKey) (fk : Option PublicKey) (mint acct : PublicKey)
    (path : String) (addr : PublicKey × Nat) (buf : List Nat) (sig : String) : List Event :=
  upToSend form pk fk mint acct path addr buf ++ [.confirmTransaction sig "confirmed"]

/-- The events that end a confirmed issuance. -/
def successEvents (sig : String) : List Event :=
  [.consoleLog ["Metadata created! Transaction signature: " ++ sig],
   .alert ("Metadata created! Transaction signature: " ++ sig),
   .setIsLoading false]

/-- The steps of the handler that can throw. -/
inductive Step where
  | balanceQuery
  | freezeAuthority
  | createMint
  | createAccount
  | mintTo
  | pinDocument
  | deriveAddress
  | encodeArguments
  | sendTransaction
  | confirmTransaction
deriving DecidableEq, Repr

/-- The first step of a submission (with a connected wallet) that throws, with
the message of its error: the steps are taken in order, each on the results of
the ones before it. `none` when no step throws or the balance is too low. -/
def firstFailure (env : Env) (form : Form) (pk : PublicKey) : Option (Step × String) :=
  match env.getBalance pk with
  | .error e => some (.balanceQuery, e)
  | .ok b =>
  if b < requiredBalance then none
  else
  match freezeAuthorityKey env form with
  | .error e => some (.freezeAuthority, e)
  | .ok fk =>
  match env.createMint pk pk fk form.decimals with
  | .error e => some (.createMint, e)
  | .ok mint =>
  match env.createAccount pk mint pk with
  | .error e => some (.createAccount, e)
  | .ok acct =>
  match env.mintTo pk mint acct pk form.supply with
  | .error e => some (.mintTo, e)
  | .ok _ =>
  match env.ipfsAdd (.json (document form)) with
  | .error e => some (.pinDocument, e)
  | .ok path =>
  match env.findProgramAddress (metadataSeeds mint) TOKEN_METADATA_PROGRAM_ID with
  | .error e => some (.deriveAddress, e)
  | .ok addr =>
  match serialize METADATA_SCHEMA (metadataArgs form.name form.symbol (ipfsUrl path)) with
  | .error e => some (.encodeArguments, e)
  | .ok buf =>
  match env.sendTransaction (metadataTransaction addr.1 mint pk buf) with
  | .error e => some (.sendTransaction, e)
  | .ok sig =>
  match env.confirmTransaction sig "confirmed" with
  | .error e => some (.confirmTransaction, e)
  | .ok _ => none

/-- The paths of the handler for a connected wallet: the trace of each, under
the responses that lead to it, and the step that threw with its message. -/
inductive Path (env : Env) (form : Form) (pk : PublicKey) :
    List Event → Option (Step × String) → Prop where
  | balanceQueryFailed {e : String} :
      env.getBalance pk = .error e →
      Path env form pk (upToBalance pk ++ catchEvents e) (some (.balanceQuery, e))
  | insufficientBalance {b : Nat} :
      env.getBalance pk = .ok b → b < requiredBalance →
      Path env form pk
        (upToBalance pk ++ [.setState insufficientBalanceState, .setIsLoading false]) none
  | freezeAuthorityInvalid {e : String} :
      PreflightChecked env pk → freezeAuthorityKey env form = .error e →
      Path env form pk (upToBalance pk ++ catchEvents e) (some (.freezeAuthority, e))
  | createMintFailed {fk : Option PublicKey} {e : String} :
      PreflightChecked env pk → freezeAuthorityKey env form = .ok fk →
      env.createMint pk pk fk form.decimals = .error e →
      Path env form pk (upToMint form pk fk ++ catchEvents e) (some (.createMint, e))
  | createAccountFailed {fk : Option PublicKey} {mint : PublicKey} {e : String} :
      AssetProvisioned env form pk fk mint → env.createAccount pk mint pk = .error e →
      Path env form pk (upToAccount form pk fk mint ++ catchEvents e) (some (.createAccount, e))
  | mintToFailed {fk : Option PublicKey} {mint acct : PublicKey} {e : String} :
      AssetProvisioned env form pk fk mint → env.createAccount pk mint pk = .ok acct →
      env.mintTo pk mint acct pk form.supply = .error e →
      Path env form pk (upToMintTo form pk fk mint acct ++ catchEvents e) (some (.mintTo, e))
  | pinFailed {fk : Option PublicKey} {mint acct : PublicKey} {e : String} :
      SupplyIssued env form pk fk mint acct →
      env.ipfsAdd (.json (document form)) = .error e →
      Path env form pk (upToPin form pk fk mint acct ++ catchEvents e) (some (.pinDocument, e))
  | deriveFailed {fk : Option PublicKey} {mint acct : PublicKey} {path e : String} :
      ContentPinned env form pk fk mint acct path →
      env.findProgramAddress (metadataSeeds mint) TOKEN_METADATA_PROGRAM_ID = .error e →
      Path env form pk (upToDerive form pk fk mint acct path ++ catchEvents e)
        (some (.deriveAddress, e))
  | encodeFailed {fk : Option PublicKey} {mint acct : PublicKey} {path e : String}
      {addr : PublicKey × Nat} :
      ContentPinned env form pk fk mint acct path →
      env.findProgramAddress (metadataSeeds mint) TOKEN_METADATA_PROGRAM_ID = .ok addr →
      serialize METADATA_SCHEMA (metadataArgs form.name form.symbol (ipfsUrl path)) = .error e →
      Path env form pk (upToDerive form pk fk mint acct path ++ catchEvents e)
        (some (.encodeArguments, e))
  | sendFailed {fk : Option PublicKey} {mint acct : PublicKey} {path e : String}
      {addr : PublicKey × Nat} {buf : List Nat} :
      InstructionBuilt env form pk fk mint acct path addr buf →
      env.sendTransaction (metadataTransaction addr.1 mint pk buf) = .error e →
      Path env form pk (upToSend form pk fk mint acct path addr buf ++ catchEvents e)
        (some (.sendTransaction, e))
  | confirmFailed {fk : Option PublicKey} {mint acct : PublicKey} {path sig e : String}
      {addr : PublicKey × Nat} {buf : List Nat} :
      InstructionBuilt env form pk fk mint acct path addr buf →
      env.sendTransaction (metadataTransaction addr.1 mint pk buf) = .ok sig →
      env.confirmTransaction sig "confirmed" = .error e →
      Path env form pk (upToConfirm form pk fk mint acct path addr buf sig ++ catchEvents e)
        (some (.confirmTransaction, e))
  | confirmed {fk : Option PublicKey} {mint acct : PublicKey} {path sig : String}
      {addr : PublicKey × Nat} {buf : List Nat} :
      InstructionBuilt env form pk fk mint acct path addr buf →
      env.sendTransaction (metadataTransaction addr.1 mint pk buf) = .ok sig →
      env.confirmTransaction sig "confirmed" = .ok () →
      Path env form pk (upToConfirm form pk fk mint acct path addr buf sig ++ successEvents sig)
        none

/-! ## Sample collaborators

Concrete responses on which the statements below are evaluated: a ledger on
which every call succeeds, and variants of it in which one collaborator fails. -/

/-- The alphabet of base-58 addresses. -/
def base58Alphabet : List Char :=
  "123456789ABCDEFGHJKLMNPQRSTUVWXYZabcdefghijkmnopqrstuvwxyz".toList

/-- The number a sequence of base-58 digits denotes, most significant first;
`none` at a character outside the alphabet. -/
def base58Value : Nat → List Char → Option Nat
  | acc, [] => some acc
  | acc, c :: cs =>
    if c ∈ base58Alphabet then base58Value (acc * 58 + base58Alphabet.indexOf c) cs
    else none

/-- The bytes of a number, least significant first, at most `fuel` of them. -/
def bytesLE : Nat → Nat → List Nat
  | 0, _ => []
  | fuel + 1, n => if n = 0 then [] else n % 256 :: bytesLE fuel (n / 256)

/-- The bytes a base-58 address denotes: one zero byte for each leading `1`,
then the bytes of the number, most significant first. -/
def base58Decode (s : String) : Option (List Nat) :=
  match base58Value 0 s.toList with
  | none => none
  | some n =>
    some (List.replicate (s.toList.takeWhile (fun c => c == '1')).length 0 ++
      (bytesLE s.length n).reverse)

/-- A public key constructor that accepts the base-58 addresses of 32 bytes. -/
def sampleNewPublicKey (s : String) : Except String PublicKey :=
  match base58Decode s with
  | none => .error "Non-base58 character"
  | some bytes =>
    if bytes.length = PUBLIC_KEY_LENGTH then .ok ⟨bytes⟩ else .error "Invalid public key input"

/-- The key of the connected wallet in the samples. -/
def issuerKey : PublicKey := ⟨List.replicate 32 9⟩

/-- The address of the mint the sample ledger creates. -/
def mintKey : PublicKey := ⟨List.replicate 32 1⟩

/-- The address of the holding account the sample ledger creates. -/
def holdingKey : PublicKey := ⟨List.replicate 32 2⟩

/-- The metadata address the sample derivation returns. -/
def metadataKey : PublicKey := ⟨List.replicate 32 3⟩

/-- Collaborators that all succeed; the wallet holds exactly 20000000 lamports. -/
def sampleEnv : Env :=
  { getBalance := fun _ => .ok 20000000
    newPublicKey := sampleNewPublicKey
    createMint := fun _ _ _ _ => .ok mintKey
    createAccount := fun _ _ _ => .ok holdingKey
    mintTo := fun _ _ _ _ _ => .ok ()
    readAsArrayBuffer := fun _ => .ok [137, 80, 78, 71]
    ipfsAdd := fun c =>
      match c with
      | .buffer _ => .ok "QmImage"
      | .json _ => .ok "QmDocument"
    findProgramAddress := fun _ _ => .ok (metadataKey, 255)
    sendTransaction := fun _ => .ok "5sig"
    confirmTransaction := fun _ _ => .ok () }

/-- The sample ledger with a wallet one lamport short of the required balance. -/
def lowBalanceEnv : Env :=
  { sampleEnv with getBalance := fun _ => .ok 19999999 }

/-- The sample ledger with a failing balance query. -/
def balanceFailsEnv : Env :=
  { sampleEnv with getBalance := fun _ => .error "Network error" }

/-- The sample ledger with a failing mint creation. -/
def mintFailsEnv : Env :=
  { sampleEnv with createMint := fun _ _ _ _ => .error "Network error" }

/-- The sample ledger with a wallet that fails to send. -/
def sendFailsEnv : Env :=
  { sampleEnv with sendTransaction := fun _ => .error "Network error" }

/-- The sample collaborators with a pinning client that fails image uploads. -/
def imageFailsEnv : Env :=
  { sampleEnv with
    ipfsAdd := fun c =>
      match c with
      | .buffer _ => .error "Network error"
      | .json _ => .ok "QmDocument" }

/-- A submission without an image and without a freeze authority. -/
def sampleForm : Form :=
  { publicKey := some issuerKey, name := "Foo", symbol := "FOO", decimals := 9,
    supply := 1000000000, description := "A sample token", freezeAuthority := "",
    logo := none }

/-- The sample submission with an image. -/
def imageForm : Form :=
  { sampleForm with logo := some ⟨"logo.png"⟩ }

/-- The sample submission with a freeze authority that is not an address. -/
def badFreezeForm : Form :=
  { sampleForm with freezeAuthority := "not-a-key" }

/-- The sample submission without a connected wallet. -/
def disconnectedForm : Form :=
  { sampleForm with publicKey := none }

/-! ## UTF-8 and little-endian round trips -/

theorem scalar?_toNat (c : Char) : scalar? c.toNat = some c := by
  have h : c.toNat.isValidChar := c.valid
  simp [scalar?, h, Char.ofNat_toNat]

theorem utf8EncodeChar_ne_nil (c : Char) : utf8EncodeChar c ≠ [] := by
  unfold utf8EncodeChar
  simp only []
  split_ifs <;> simp

theorem utf8DecodeChar_encode (c : Char) (rest : List Nat) :
    utf8DecodeChar (utf8EncodeChar c ++ rest) = some (c, rest) := by
  have hv : c.toNat.isValidChar := c.valid
  have hs := scalar?_toNat c
  have hlt : c.toNat < 0x110000 := by
    rcases hv with h | ⟨_, h⟩
    · omega
    · exact h
  unfold utf8EncodeChar
  simp only []
  split_ifs with h1 h2 h3
  · simp [utf8DecodeChar, h1, hs]
  · have e : c.toNat / 64 * 64 + c.toNat % 64 = c.toNat := by omega
    have a1 : ¬ (0xC0 + c.toNat / 64 < 0x80) := by omega
    have a2 : ¬ (0xC0 + c.toNat / 64 < 0xC0) := by omega
    have a3 : 0xC0 + c.toNat / 64 < 0xE0 := by omega
    have c1 : isCont (0x80 + c.toNat % 64) = true := by simp [isCont]; omega
    have o1 : 0x80 ≤ c.toNat := by omega
    simp [utf8DecodeChar, a1, a2, a3, c1, e, hs, o1]
  · have e : c.toNat / 4096 * 4096 + c.toNat / 64 % 64 * 64 + c.toNat % 64 = c.toNat := by omega
    have a1 : ¬ (0xE0 + c.toNat / 4096 < 0x80) := by omega
    have a2 : ¬ (0xE0 + c.toNat / 4096 < 0xC0) := by omega
    have a3 : ¬ (0xE0 + c.toNat / 4096 < 0xE0) := by omega
    have a4 : 0xE0 + c.toNat / 4096 < 0xF0 := by omega
    have c1 : isCont (0x80 + c.toNat % 64) = true := by simp [isCont]; omega
    have c2 : isCont (0x80 + c.toNat / 64 % 64) = true := by simp [isCont]; omega
    have o1 : 0x800 ≤ c.toNat := by omega
    simp [utf8DecodeChar, a1, a2, a3, a4, c1, c2, e, hs, o1]
  · have e : c.toNat / 262144 * 262144 + c.toNat / 4096 % 64 * 4096 + c.toNat / 64 % 64 * 64
        + c.toNat % 64 = c.toNat := by omega
    have a1 : ¬ (0xF0 + c.toNat / 262144 < 0x80) := by omega
    have a2 : ¬ (0xF0 + c.toNat / 262144 < 0xC0) := by omega
    have a3 : ¬ (0xF0 + c.toNat / 262144 < 0xE0) := by omega
    have a4 : ¬ (0xF0 + c.toNat / 262144 < 0xF0) := by omega
    have a5 : 0xF0 + c.toNat / 262144 < 0xF8 := by omega
    have c1 : isCont (0x80 + c.toNat % 64) = true := by simp [isCont]; omega
    have c2 : isCont (0x80 + c.toNat / 64 % 64) = true := by simp [isCont]; omega
    have c3 : isCont (0x80 + c.toNat / 4096 % 64) = true := by simp [isCont]; omega
    have o1 : 0x10000 ≤ c.toNat := by omega
    simp [utf8DecodeChar, a1, a2, a3, a4, a5, c1, c2, c3, e, hs, o1]

theorem utf8DecodeAux_encode (cs : List Char) :
    ∀ fuel, (utf8EncodeChars cs).length ≤ fuel →
      utf8DecodeAux fuel (utf8EncodeChars cs) = some cs := by
  induction cs with
  | nil => intro fuel _; cases fuel <;> simp [utf8EncodeChars, utf8DecodeAux]
  | cons c cs ih =>
    intro fuel hfuel
    have hne := utf8EncodeChar_ne_nil c
    have hdec := utf8DecodeChar_encode c (utf8EncodeChars cs)
    simp only [utf8EncodeChars] at hfuel hdec ⊢
    cases hb : utf8EncodeChar c with
    | nil => exact absurd hb hne
    | cons b bs =>
      rw [hb] at hfuel hdec
      simp only [List.cons_append, List.length_cons, List.length_append] at hfuel
      cases fuel with
      | zero => omega
      | succ fuel =>
        simp only [List.cons_append] at hdec ⊢
        simp only [utf8DecodeAux, hdec]
        rw [ih fuel (by omega)]
        rfl

theorem utf8Decode_encode (s : String) : utf8Decode (utf8Encode s) = some s := by
  unfold utf8Decode utf8Encode
  rw [utf8DecodeAux_encode s.toList _ (le_refl _)]
  rfl

theorem leBytes_length (n v : Nat) : (leBytes n v).length = n := by
  induction n generalizing v with
  | zero => rfl
  | succ n ih => simp [leBytes, ih]

theorem leValue_leBytes (n : Nat) : ∀ v, v < 256 ^ n → leValue (leBytes n v) = v := by
  induction n with
  | zero => intro v h; simp at h; simp [leBytes, leValue, h]
  | succ n ih =>
    intro v h
    have h2 : v / 256 < 256 ^ n := by
      rw [Nat.div_lt_iff_lt_mul (by norm_num)]
      rw [pow_succ] at h; exact h
    simp only [leBytes, leValue, ih _ h2]
    omega

/-! ## Reading back what the writer wrote -/

theorem readUInt_write (n v : Nat) (bytes rest : List Nat) (h : writeUInt n v = .ok bytes) :
    readUInt n (bytes ++ rest) = .ok (v, rest) := by
  unfold writeUInt at h
  split_ifs at h with hv
  cases h
  simp [readUInt, leBytes_length, leValue_leBytes n v hv, List.take_append_of_le_length,
    List.drop_append_of_le_length]

theorem readString_write (s : String) (bytes rest : List Nat) (h : writeString s = .ok bytes) :
    readString (bytes ++ rest) = .ok (s, rest) := by
  unfold writeString at h
  cases hl : writeUInt 4 (utf8Encode s).length with
  | error e => simp [hl] at h
  | ok len =>
    simp [hl] at h
    subst h
    have h1 := readUInt_write 4 _ len (utf8Encode s ++ rest) hl
    simp [readString, List.append_assoc, h1, utf8Decode_encode]

theorem writeItems_read {α : Type} (f : α → Except String (List Nat))
    (g : List Nat → Except String (α × List Nat))
    (xs : List α)
    (hfg : ∀ x ∈ xs, ∀ b rest, f x = .ok b → g (b ++ rest) = .ok (x, rest)) :
    ∀ bytes rest, writeItems f xs = .ok bytes →
      readItems g xs.length (bytes ++ rest) = .ok (xs, rest) := by
  induction xs with
  | nil =>
    intro bytes rest h
    simp [writeItems] at h
    subst h
    simp [readItems]
  | cons x xs ih =>
    intro bytes rest h
    simp only [writeItems] at h
    cases hx : f x with
    | error e => simp [hx] at h
    | ok b =>
      cases hxs : writeItems f xs with
      | error e => simp [hx, hxs] at h
      | ok bs =>
        simp [hx, hxs] at h
        subst h
        have h1 := hfg x (List.mem_cons_self _ _) b (bs ++ rest) hx
        have h2 := ih (fun y hy => hfg y (List.mem_cons_of_mem _ hy)) bs rest hxs
        simp [readItems, List.append_assoc, h1, h2]

/-- Every field a `serializeField` call wrote is read back by `deserializeField`,
which leaves the bytes that follow it untouched. -/
theorem deserializeField_serialize (t : FieldType) :
    ∀ (v : t.Val) (bytes rest : List Nat), serializeField t v = .ok bytes →
      deserializeField t (bytes ++ rest) = .ok (v, rest) := by
  induction t with
  | string => intro v bytes rest h; exact readString_write v bytes rest h
  | u8 => intro v bytes rest h; exact readUInt_write 1 v bytes rest h
  | u16 => intro v bytes rest h; exact readUInt_write 2 v bytes rest h
  | u32 => intro v bytes rest h; exact readUInt_write 4 v bytes rest h
  | pubkey =>
    intro v bytes rest h
    simp only [serializeField] at h
    split_ifs at h with hk
    cases h
    obtain ⟨k⟩ := v
    simp only at hk
    simp [deserializeField, hk.1]
  | array t ih =>
    intro v bytes rest h
    simp only [serializeField] at h
    cases hl : writeUInt 4 (List.length (α := t.Val) v) with
    | error e => simp [hl] at h
    | ok len =>
      cases hb : writeItems (serializeField t) v with
      | error e => simp [hl, hb] at h
      | ok bs =>
        simp [hl, hb] at h
        subst h
        have h1 := readUInt_write 4 _ len (bs ++ rest) hl
        have h2 := writeItems_read (serializeField t) (deserializeField t) v
          (fun x _ b r hx => ih x b r hx) bs rest hb
        simp only [deserializeField, List.append_assoc, h1]
        exact h2
  | option t ih =>
    intro v bytes rest h
    cases v with
    | none =>
      simp only [serializeField] at h
      have h1 := readUInt_write 1 0 bytes rest h
      simp [deserializeField, h1]
    | some x =>
      simp only [serializeField] at h
      cases ht : writeUInt 1 1 with
      | error e => simp [ht] at h
      | ok tag =>
        cases hx : serializeField t x with
        | error e => simp [ht, hx] at h
        | ok b =>
          simp [ht, hx] at h
          subst h
          have h1 := readUInt_write 1 1 tag (b ++ rest) ht
          have h2 := ih x b rest hx
          simp [deserializeField, List.append_assoc, h1, h2]

/-- Decoding under `METADATA_SCHEMA` inverts encoding under it, for every
`CreateMetadataArgs` that can be encoded. -/
theorem deserialize_serialize (args : CreateMetadataArgs) (bytes : List Nat)
    (h : serialize METADATA_SCHEMA args = .ok bytes) : deserialize bytes = .ok args := by
  simp only [serialize, METADATA_SCHEMA, writeItems] at h
  cases h1 : serializeField .string args.name with
  | error e => simp [h1] at h
  | ok b1 =>
  cases h2 : serializeField .string args.symbol with
  | error e => simp [h1, h2] at h
  | ok b2 =>
  cases h3 : serializeField .string args.uri with
  | error e => simp [h1, h2, h3] at h
  | ok b3 =>
  cases h4 : serializeField .u16 args.sellerFeeBasisPoints with
  | error e => simp [h1, h2, h3, h4] at h
  | ok b4 =>
  cases h5 : serializeField (.option (.array .pubkey)) args.creators with
  | error e => simp [h1, h2, h3, h4, h5] at h
  | ok b5 =>
    simp [h1, h2, h3, h4, h5] at h
    subst h
    have d1 := deserializeField_serialize .string args.name b1 (b2 ++ (b3 ++ (b4 ++ b5))) h1
    have d2 := deserializeField_serialize .string args.symbol b2 (b3 ++ (b4 ++ b5)) h2
    have d3 := deserializeField_serialize .string args.uri b3 (b4 ++ b5) h3
    have d4 := deserializeField_serialize .u16 args.sellerFeeBasisPoints b4 b5 h4
    have d5 := deserializeField_serialize (.option (.array .pubkey)) args.creators b5 [] h5
    simp only [List.append_nil] at d5
    simp [deserialize, d1, d2, d3, d4, d5]

/-- The four little-endian bytes of a length prefix, written out. -/
theorem leBytes_four (n : Nat) :
    leBytes 4 n = [n % 256, n / 256 % 256, n / 65536 % 256, n / 16777216 % 256] := by
  simp only [leBytes]
  have e1 : n / 256 / 256 = n / 65536 := by omega
  have e2 : n / 256 / 256 / 256 = n / 16777216 := by omega
  rw [e2, e1]

/-- The encoding of the arguments the handler builds, when the three strings
fit their length prefix. -/
theorem serialize_metadataArgs (name symbol uri : String)
    (hn : (utf8Encode name).length < 2 ^ 32) (hs : (utf8Encode symbol).length < 2 ^ 32)
    (hu : (utf8Encode uri).length < 2 ^ 32) :
    serialize METADATA_SCHEMA (metadataArgs name symbol uri) =
      .ok (leBytes 4 (utf8Encode name).length ++ utf8Encode name ++
           (leBytes 4 (utf8Encode symbol).length ++ utf8Encode symbol ++
           (leBytes 4 (utf8Encode uri).length ++ utf8Encode uri ++ ([244, 1] ++ ([0] ++ []))))) := by
  have p : (256 : Nat) ^ 4 = 2 ^ 32 := by norm_num
  have w : ∀ s : String, (utf8Encode s).length < 2 ^ 32 →
      writeString s = .ok (leBytes 4 (utf8Encode s).length ++ utf8Encode s) := by
    intro s h
    have h' : (utf8Encode s).length < 256 ^ 4 := by rw [p]; exact h
    simp only [writeString, writeUInt, if_pos h']
  simp [serialize, METADATA_SCHEMA, writeItems, serializeField, metadataArgs, w _ hn, w _ hs,
    w _ hu, writeUInt, leBytes]

/-! ## The event loop keeps both sequences -/

theorem splitAfter_append (p : Event → Bool) (l : List Event) :
    (splitAfter p l).1 ++ (splitAfter p l).2 = l := by
  induction l with
  | nil => rfl
  | cons e es ih =>
    simp only [splitAfter]
    split_ifs
    · rfl
    · simp [ih]

theorem filterMap_merge {β : Type} (f : Event → Option β) (sched : List Bool)
    (main cb : List Event) (hcb : ∀ e ∈ cb, f e = none) :
    (merge sched main cb).filterMap f = main.filterMap f := by
  induction cb generalizing sched main with
  | nil => cases main <;> simp [merge]
  | cons c cb ihc =>
    have hc : f c = none := hcb c (List.mem_cons_self _ _)
    have hcb' : ∀ e ∈ cb, f e = none := fun e he => hcb e (List.mem_cons_of_mem _ he)
    have hall : (c :: cb).filterMap f = [] := by
      rw [List.filterMap_eq_nil_iff]; exact hcb
    induction main generalizing sched with
    | nil => simp [merge, hall]
    | cons m main ihm =>
      cases sched with
      | nil => simp only [merge, List.filterMap_append, hall, List.append_nil]
      | cons b sched =>
        cases b with
        | true =>
          simp only [merge]
          rw [List.filterMap_cons, List.filterMap_cons, ihm]
        | false =>
          simp only [merge]
          rw [List.filterMap_cons, hc]
          exact ihc sched (m :: main) hcb'

theorem mem_merge (sched : List Bool) (main cb : List Event) (e : Event) :
    e ∈ merge sched main cb ↔ e ∈ main ∨ e ∈ cb := by
  induction cb generalizing sched main with
  | nil => cases main <;> simp [merge]
  | cons c cb ihc =>
    induction main generalizing sched with
    | nil => simp [merge]
    | cons m main ihm =>
      cases sched with
      | nil => simp [merge]; tauto
      | cons b sched =>
        cases b with
        | true =>
          simp only [merge, List.mem_cons, ihm]
          tauto
        | false =>
          simp only [merge, List.mem_cons, ihc]
          tauto

/-- The callback makes no call but the image upload and touches no component
state: it only uploads and logs. -/
theorem onloadend_events (env : Env) (logo : File) (e : Event) (h : e ∈ (onloadend env logo).1) :
    (∃ b, e = .ipfsAdd (.buffer b)) ∨ (∃ a, e = .consoleLog a) ∨
      (∃ a, e = .consoleError a) := by
  unfold onloadend at h
  cases h1 : env.readAsArrayBuffer logo with
  | error err => simp [h1] at h; right; right; exact ⟨_, h⟩
  | ok buf =>
    simp only [h1, after] at h
    cases h2 : env.ipfsAdd (.buffer buf) with
    | error err =>
      simp [h2] at h
      rcases h with h | h
      · left; exact ⟨_, h⟩
      · right; right; exact ⟨_, h⟩
    | ok path =>
      simp [h2] at h
      rcases h with h | h
      · left; exact ⟨_, h⟩
      · right; left; exact ⟨_, h⟩

/-- Observing a submission through a projection that ignores image uploads and
console messages is observing the handler alone. -/
theorem filterMap_issuance {β : Type} (f : Event → Option β)
    (hb : ∀ b, f (.ipfsAdd (.buffer b)) = none)
    (hl : ∀ a, f (.consoleLog a) = none) (he : ∀ a, f (.consoleError a) = none)
    (env : Env) (form : Form) (sched : List Bool) :
    (issuance env form sched).filterMap f = (handleSubmit env form).filterMap f := by
  unfold issuance
  cases hp : pendingRead (handleSubmit env form) with
  | none => rfl
  | some logo =>
    simp only [List.filterMap_append]
    rw [filterMap_merge f sched _ _ ?_, ← List.filterMap_append, splitAfter_append]
    intro e hmem
    rcases onloadend_events env logo e hmem with ⟨b, rfl⟩ | ⟨a, rfl⟩ | ⟨a, rfl⟩
    · exact hb b
    · exact hl a
    · exact he a

theorem notifications_issuance (env : Env) (form : Form) (sched : List Bool) :
    notifications (issuance env form sched) = notifications (handleSubmit env form) :=
  filterMap_issuance _ (fun _ => rfl) (fun _ => rfl) (fun _ => rfl) env form sched

/-! ## Every run of the handler follows one of the paths -/

theorem handleSubmit_path (env : Env) (form : Form) (pk : PublicKey)
    (hpk : form.publicKey = some pk) :
    Path env form pk (handleSubmit env form) (firstFailure env form pk) := by
  have hdoc : (Metadata.mk form.name form.symbol form.description "") = document form := rfl
  have htx : ∀ (a m : PublicKey) (b : List Nat),
      Transaction.mk [createMetadataInstruction a m pk b] = metadataTransaction a m pk b :=
    fun _ _ _ => rfl
  unfold handleSubmit tryBlock firstFailure
  simp only [hpk, after, hdoc, htx]
  cases h1 : env.getBalance pk with
  | error e => simpa [upToBalance, catchEvents] using @Path.balanceQueryFailed env form pk e h1
  | ok b =>
  by_cases hb : b < requiredBalance
  · simpa [hb, upToBalance] using @Path.insufficientBalance env form pk b h1 hb
  have s1 : PreflightChecked env pk := ⟨b, h1, hb⟩
  simp only [hb, if_false]
  cases h2 : freezeAuthorityKey env form with
  | error e => simpa [upToBalance, catchEvents] using Path.freezeAuthorityInvalid s1 h2
  | ok fk =>
  simp only []
  cases h3 : env.createMint pk pk fk form.decimals with
  | error e =>
    simpa [upToBalance, upToMint, catchEvents] using Path.createMintFailed s1 h2 h3
  | ok mint =>
  have s2 : AssetProvisioned env form pk fk mint := ⟨s1, h2, h3⟩
  simp only []
  cases h4 : env.createAccount pk mint pk with
  | error e =>
    simpa [upToBalance, upToMint, upToAccount, catchEvents]
      using Path.createAccountFailed s2 h4
  | ok acct =>
  simp only []
  cases h5 : env.mintTo pk mint acct pk form.supply with
  | error e =>
    simpa [upToBalance, upToMint, upToAccount, upToMintTo, catchEvents]
      using Path.mintToFailed s2 h4 h5
  | ok u =>
  have s3 : SupplyIssued env form pk fk mint acct := ⟨s2, h4, h5⟩
  simp only []
  cases h6 : env.ipfsAdd (.json (document form)) with
  | error e =>
    simpa [upToBalance, upToMint, upToAccount, upToMintTo, upToPin, readEvents, catchEvents]
      using Path.pinFailed s3 h6
  | ok path =>
  have s4 : ContentPinned env form pk fk mint acct path := ⟨s3, h6⟩
  simp only []
  cases h7 : env.findProgramAddress (metadataSeeds mint) TOKEN_METADATA_PROGRAM_ID with
  | error e =>
    simpa [upToBalance, upToMint, upToAccount, upToMintTo, upToPin, upToDerive, readEvents,
      catchEvents] using Path.deriveFailed s4 h7
  | ok addr =>
  simp only []
  cases h8 : serialize METADATA_SCHEMA (metadataArgs form.name form.symbol (ipfsUrl path)) with
  | error e =>
    simpa [upToBalance, upToMint, upToAccount, upToMintTo, upToPin, upToDerive, readEvents,
      catchEvents] using Path.encodeFailed s4 h7 h8
  | ok buf =>
  have s5 : InstructionBuilt env form pk fk mint acct path addr buf := ⟨s4, h7, h8⟩
  simp only []
  cases h9 : env.sendTransaction (metadataTransaction addr.1 mint pk buf) with
  | error e =>
    simpa [upToBalance, upToMint, upToAccount, upToMintTo, upToPin, upToDerive, upToSend,
      readEvents, catchEvents] using Path.sendFailed s5 h9
  | ok sig =>
  simp only []
  cases h10 : env.confirmTransaction sig "confirmed" with
  | error e =>
    simpa [upToBalance, upToMint, upToAccount, upToMintTo, upToPin, upToDerive, upToSend,
      upToConfirm, readEvents, catchEvents] using Path.confirmFailed s5 h9 h10
  | ok u2 =>
    simpa [upToBalance, upToMint, upToAccount, upToMintTo, upToPin, upToDerive, upToSend,
      upToConfirm, readEvents, successEvents] using Path.confirmed s5 h9 h10

/-! ## The handler inside a whole submission -/

theorem mem_issuance_of_mem_handleSubmit (env : Env) (form : Form) (sched : List Bool)
    (e : Event) (h : e ∈ handleSubmit env form) : e ∈ issuance env form sched := by
  unfold issuance
  cases hp : pendingRead (handleSubmit env form) with
  | none => exact h
  | some logo =>
    simp only [List.mem_append, mem_merge]
    rw [← splitAfter_append isPinJson (handleSubmit env form), List.mem_append] at h
    tauto

theorem mem_handleSubmit_of_mem_issuance (env : Env) (form : Form) (sched : List Bool)
    (e : Event) (h : e ∈ issuance env form sched)
    (hb : ∀ b, e ≠ .ipfsAdd (.buffer b)) (hl : ∀ a, e ≠ .consoleLog a)
    (he : ∀ a, e ≠ .consoleError a) : e ∈ handleSubmit env form := by
  unfold issuance at h
  cases hp : pendingRead (handleSubmit env form) with
  | none => simpa [hp] using h
  | some logo =>
    simp only [hp, List.mem_append, mem_merge] at h
    rw [← splitAfter_append isPinJson (handleSubmit env form), List.mem_append]
    rcases h with h | h | h
    · exact Or.inl h
    · exact Or.inr h
    · rcases onloadend_events env logo e h with ⟨b, rfl⟩ | ⟨a, rfl⟩ | ⟨a, rfl⟩
      · exact absurd rfl (hb b)
      · exact absurd rfl (hl a)
      · exact absurd rfl (he a)

theorem handleSubmit_disconnected (env : Env) (form : Form) (h : form.publicKey = none) :
    handleSubmit env form = [.setState connectWalletState] := by
  simp [handleSubmit, h]

theorem issuance_disconnected (env : Env) (form : Form) (sched : List Bool)
    (h : form.publicKey = none) :
    issuance env form sched = [.setState connectWalletState] := by
  simp [issuance, handleSubmit_disconnected env form h, pendingRead]

theorem handleSubmit_balanceError (env : Env) (form : Form) (pk : PublicKey) (e : String)
    (hpk : form.publicKey = some pk) (h : env.getBalance pk = .error e) :
    handleSubmit env form = upToBalance pk ++ catchEvents e := by
  simp [handleSubmit, tryBlock, hpk, h, after, upToBalance, catchEvents]

theorem handleSubmit_insufficient (env : Env) (form : Form) (pk : PublicKey) (b : Nat)
    (hpk : form.publicKey = some pk) (h : env.getBalance pk = .ok b) (hb : b < requiredBalance) :
    handleSubmit env form =
      upToBalance pk ++ [.setState insufficientBalanceState, .setIsLoading false] := by
  simp [handleSubmit, tryBlock, hpk, h, hb, after, upToBalance]

theorem pendingRead_append (l₁ l₂ : List Event) :
    pendingRead (l₁ ++ l₂) = (pendingRead l₁).orElse (fun _ => pendingRead l₂) := by
  induction l₁ with
  | nil => simp [pendingRead]
  | cons e es ih => cases e <;> simp [pendingRead, ih]

/-- Without an image the handler starts no read, so the submission is the
handler alone. -/
theorem issuance_of_logo_none (env : Env) (form : Form) (sched : List Bool)
    (hlogo : form.logo = none) : issuance env form sched = handleSubmit env form := by
  have key : pendingRead (handleSubmit env form) = none := by
    cases hpk : form.publicKey with
    | none => simp [handleSubmit_disconnected env form hpk, pendingRead]
    | some pk =>
      have hp := handleSubmit_path env form pk hpk
      generalize handleSubmit env form = T at hp
      generalize firstFailure env form pk = o at hp
      cases hp <;>
        simp [upToBalance, upToMint, upToAccount, upToMintTo, upToPin, upToDerive, upToSend,
          upToConfirm, readEvents, hlogo, catchEvents, successEvents, pendingRead]
  simp [issuance, key]

theorem isLoadingAfter_append (i : Bool) (l₁ l₂ : List Event) :
    isLoadingAfter i (l₁ ++ l₂) = isLoadingAfter (isLoadingAfter i l₁) l₂ := by
  induction l₁ generalizing i with
  | nil => rfl
  | cons e es ih => cases e <;> simp [isLoadingAfter, ih]

theorem isLoadingAfter_merge (sched : List Bool) (main cb : List Event)
    (hcb : ∀ e ∈ cb, ∀ b, e ≠ .setIsLoading b) (i : Bool) :
    isLoadingAfter i (merge sched main cb) = isLoadingAfter i main := by
  have skip : ∀ (c : Event) (j : Bool) (l : List Event), (∀ b, c ≠ .setIsLoading b) →
      isLoadingAfter j (c :: l) = isLoadingAfter j l := by
    intro c j l hc
    cases c <;> simp [isLoadingAfter] at hc ⊢
  have skipAll : ∀ (l : List Event), (∀ e ∈ l, ∀ b, e ≠ .setIsLoading b) →
      ∀ j, isLoadingAfter j l = j := by
    intro l
    induction l with
    | nil => intro _ j; rfl
    | cons c l ih =>
      intro hl j
      rw [skip c j l (hl c (List.mem_cons_self _ _))]
      exact ih (fun e he => hl e (List.mem_cons_of_mem _ he)) j
  induction cb generalizing sched main i with
  | nil => cases main <;> simp [merge]
  | cons c cb ihc =>
    have hc := hcb c (List.mem_cons_self _ _)
    have hcb' : ∀ e ∈ cb, ∀ b, e ≠ .setIsLoading b :=
      fun e he => hcb e (List.mem_cons_of_mem _ he)
    induction main generalizing sched i with
    | nil => simp only [merge]; rw [skipAll _ hcb]; rfl
    | cons m main ihm =>
      cases sched with
      | nil => simp only [merge]; rw [isLoadingAfter_append, skipAll _ hcb]
      | cons b sched =>
        cases b with
        | true =>
          simp only [merge]
          cases m <;> simp [isLoadingAfter, ihm]
        | false =>
          simp only [merge]
          rw [skip c i _ hc]
          exact ihc sched (m :: main) hcb' i

theorem isLoadingAfter_issuance (env : Env) (form : Form) (sched : List Bool) (i : Bool) :
    isLoadingAfter i (issuance env form sched) = isLoadingAfter i (handleSubmit env form) := by
  unfold issuance
  cases hp : pendingRead (handleSubmit env form) with
  | none => rfl
  | some logo =>
    simp only []
    rw [isLoadingAfter_append, isLoadingAfter_merge, ← isLoadingAfter_append, splitAfter_append]
    intro e hmem b
    rcases onloadend_events env logo e hmem with ⟨b, rfl⟩ | ⟨a, rfl⟩ | ⟨a, rfl⟩ <;> simp

theorem issuance_head (env : Env) (form : Form) (sched : List Bool) (pk : PublicKey)
    (hpk : form.publicKey = some pk) :
    ∃ rest, issuance env form sched = .setIsLoading true :: rest := by
  have hh : ∃ rest, handleSubmit env form = .setIsLoading true :: rest := by
    simp [handleSubmit, hpk]
  obtain ⟨rest, hrest⟩ := hh
  unfold issuance
  rw [hrest]
  cases pendingRead (Event.setIsLoading true :: rest) with
  | none => exact ⟨rest, rfl⟩
  | some logo => exact ⟨_, by simp [splitAfter, isPinJson]; rfl⟩

theorem isLoadingAfter_handleSubmit (env : Env) (form : Form) (pk : PublicKey) (i : Bool)
    (hpk : form.publicKey = some pk) : isLoadingAfter i (handleSubmit env form) = false := by
  have hp := handleSubmit_path env form pk hpk
  generalize handleSubmit env form = T at hp
  generalize firstFailure env form pk = o at hp
  cases hp <;>
    simp [isLoadingAfter_append, upToBalance, upToMint, upToAccount, upToMintTo, upToPin,
      upToDerive, upToSend, upToConfirm, catchEvents, successEvents, isLoadingAfter]

/-! ## The claims -/

theorem requiredBalance_eq : requiredBalance = 20000000 := by decide

/-- C1: without a wallet no call to a collaborator is made at all; with a
wallet whose balance query fails or returns less than 20,000,000 lamports the
balance query is the only call (so no mint, account, minting, upload or
transaction is ever attempted); a balance of 20,000,000 lamports or more passes
the gate: the mint creation is attempted as soon as the freeze authority is
parsed. -/
theorem C1_precondition_gate (env : Env) (form : Form) (sched : List Bool) :
    (form.publicKey = none → calls (issuance env form sched) = []) ∧
    (∀ pk, form.publicKey = some pk →
      (isError (env.getBalance pk) = true ∨ ∃ b, env.getBalance pk = .ok b ∧ b < 20000000) →
      calls (issuance env form sched) = [.getBalance pk]) ∧
    (∀ pk b fk, form.publicKey = some pk → env.getBalance pk = .ok b → 20000000 ≤ b →
      freezeAuthorityKey env form = .ok fk →
      Event.createMint pk pk fk form.decimals ∈ issuance env form sched) := by
  refine ⟨?_, ?_, ?_⟩
  · intro h
    rw [issuance_disconnected env form sched h]
    rfl
  · intro pk hpk h
    have key : ∀ tail, handleSubmit env form = upToBalance pk ++ tail →
        (∀ e ∈ tail, callKind e = none) → pendingRead tail = none →
        calls (issuance env form sched) = [.getBalance pk] := by
      intro tail ht hnone hpend
      have hp : pendingRead (handleSubmit env form) = none := by
        rw [ht, pendingRead_append]
        simp [upToBalance, pendingRead, hpend]
      have hi : issuance env form sched = handleSubmit env form := by simp [issuance, hp]
      rw [hi, ht]
      simp only [calls, List.filter_append]
      have : tail.filter (fun e => (callKind e).isSome) = [] := by
        rw [List.filter_eq_nil_iff]
        intro e he
        simp [hnone e he]
      rw [this]
      simp [upToBalance, callKind, List.filter]
    rcases h with h | ⟨b, hb, hlt⟩
    · cases hbal : env.getBalance pk with
      | ok b => simp [hbal, isError] at h
      | error e =>
        refine key _ (handleSubmit_balanceError env form pk e hpk hbal) ?_ ?_
        · intro ev hev
          simp [catchEvents] at hev
          rcases hev with rfl | rfl | rfl <;> rfl
        · simp [catchEvents, pendingRead]
    · have hlt' : b < requiredBalance := by rw [requiredBalance_eq]; exact hlt
      refine key _ (handleSubmit_insufficient env form pk b hpk hb hlt') ?_ ?_
      · intro ev hev
        simp at hev
        rcases hev with rfl | rfl <;> rfl
      · simp [pendingRead]
  · intro pk b fk hpk hbal hge hfk
    apply mem_issuance_of_mem_handleSubmit
    have hnlt : ¬ b < requiredBalance := by rw [requiredBalance_eq]; omega
    simp [handleSubmit, tryBlock, hpk, hbal, hnlt, hfk, after]

/-- The witness of C1: a disconnected form, a failing balance query, a wallet
one lamport short, and a wallet holding exactly 20,000,000 lamports. -/
theorem C1_precondition_gate_witness :
    calls (issuance sampleEnv disconnectedForm []) = [] ∧
    calls (issuance balanceFailsEnv sampleForm []) = [.getBalance issuerKey] ∧
    calls (issuance lowBalanceEnv sampleForm []) = [.getBalance issuerKey] ∧
    Event.createMint issuerKey issuerKey none 9 ∈ issuance sampleEnv sampleForm [] :=
  ⟨(C1_precondition_gate sampleEnv disconnectedForm []).1 rfl,
   (C1_precondition_gate balanceFailsEnv sampleForm []).2.1 issuerKey rfl (Or.inl rfl),
   (C1_precondition_gate lowBalanceEnv sampleForm []).2.1 issuerKey rfl
     (Or.inr ⟨19999999, rfl, by decide⟩),
   (C1_precondition_gate sampleEnv sampleForm []).2.2 issuerKey 20000000 none rfl rfl
     (by decide) rfl⟩

/-- C10: with a connected wallet the busy flag is raised before anything else
happens, in particular before the first call to a collaborator, and it is down
when the handler has finished, on every path (low balance, a failing step,
success) and whatever the image callback does meanwhile; without a wallet the
busy flag is not touched. -/
theorem C10_busy_signal (env : Env) (form : Form) (sched : List Bool) (isLoading : Bool) :
    (∀ pk, form.publicKey = some pk →
      (∃ rest, handleSubmit env form = .setIsLoading true :: rest) ∧
      (∃ rest, issuance env form sched = .setIsLoading true :: rest) ∧
      isLoadingAfter isLoading (handleSubmit env form) = false ∧
      isLoadingAfter isLoading (issuance env form sched) = false) ∧
    (form.publicKey = none →
      (∀ b, Event.setIsLoading b ∉ issuance env form sched) ∧
      isLoadingAfter isLoading (issuance env form sched) = isLoading) := by
  constructor
  · intro pk hpk
    refine ⟨by simp [handleSubmit, hpk], issuance_head env form sched pk hpk,
      isLoadingAfter_handleSubmit env form pk isLoading hpk, ?_⟩
    rw [isLoadingAfter_issuance]
    exact isLoadingAfter_handleSubmit env form pk isLoading hpk
  · intro h
    rw [issuance_disconnected env form sched h]
    simp [isLoadingAfter]

/-- The witness of C10: the sample submission with an image, its callback
scheduled first, and the disconnected form with the busy flag up. -/
theorem C10_busy_signal_witness :
    isLoadingAfter true (issuance sampleEnv imageForm [false, false]) = false ∧
    isLoadingAfter true (issuance sampleEnv disconnectedForm []) = true :=
  ⟨((C10_busy_signal sampleEnv imageForm [false, false] true).1 issuerKey rfl).2.2.2,
   ((C10_busy_signal sampleEnv disconnectedForm [] true).2 rfl).2⟩

theorem callsOfKind_issuance (env : Env) (form : Form) (sched : List Bool) (k : CallKind)
    (hk : k ≠ .ipfsAddImage) :
    callsOfKind k (issuance env form sched) = callsOfKind k (handleSubmit env form) := by
  unfold callsOfKind
  simp only [← List.filterMap_eq_filter]
  apply filterMap_issuance
  · intro b
    cases k <;> simp [callKind, Option.guard] at hk ⊢
  · intro a
    simp [callKind, Option.guard]
  · intro a
    simp [callKind, Option.guard]

/-- C9: when the preflight passes and the mint and the holding account are
created, the mint creation is called once, with the issuer as payer and as
mint authority, with the parsed freeze authority, which is absent exactly when
the form field is empty, and with the decimals of the form; the supply is
minted once, the amount being the supply of the form as it is (not scaled by
the decimals), into the holding account created for that mint and the issuer,
with the issuer as authority. -/
theorem C9_provisioning_arguments (env : Env) (form : Form) (sched : List Bool)
    (pk : PublicKey) (fk : Option PublicKey) (mint acct : PublicKey)
    (hpk : form.publicKey = some pk) (hprov : AssetProvisioned env form pk fk mint)
    (hacct : env.createAccount pk mint pk = .ok acct) :
    callsOfKind .createMint (issuance env form sched) =
      [.createMint pk pk fk form.decimals] ∧
    (fk = none ↔ form.freezeAuthority = "") ∧
    callsOfKind .createAccount (issuance env form sched) = [.createAccount pk mint pk] ∧
    callsOfKind .mintTo (issuance env form sched) =
      [.mintTo pk mint acct pk form.supply] := by
  obtain ⟨⟨b, hbal, hnlt⟩, hfk, hmint⟩ := hprov
  have hfreeze : fk = none ↔ form.freezeAuthority = "" := by
    unfold freezeAuthorityKey at hfk
    by_cases hf : form.freezeAuthority = ""
    · simp [hf] at hfk
      simp [hf, hfk]
    · simp only [hf, if_false] at hfk
      cases hn : env.newPublicKey form.freezeAuthority with
      | error e => simp [hn] at hfk
      | ok key =>
        simp [hn] at hfk
        simp [hf, ← hfk]
  rw [callsOfKind_issuance _ _ _ _ (by decide), callsOfKind_issuance _ _ _ _ (by decide),
    callsOfKind_issuance _ _ _ _ (by decide)]
  have main : callsOfKind .createMint (handleSubmit env form) =
        [.createMint pk pk fk form.decimals] ∧
      callsOfKind .createAccount (handleSubmit env form) = [.createAccount pk mint pk] ∧
      callsOfKind .mintTo (handleSubmit env form) = [.mintTo pk mint acct pk form.supply] := by
    unfold handleSubmit tryBlock
    simp only [hpk, after, hbal, hnlt, if_false, hfk, hmint, hacct]
    cases h5 : env.mintTo pk mint acct pk form.supply with
    | error e => exact ⟨rfl, rfl, rfl⟩
    | ok u =>
    simp only []
    cases h6 : env.ipfsAdd (.json (Metadata.mk form.name form.symbol form.description "")) with
    | error e => cases form.logo <;> exact ⟨rfl, rfl, rfl⟩
    | ok path =>
    simp only []
    cases h7 : env.findProgramAddress (metadataSeeds mint) TOKEN_METADATA_PROGRAM_ID with
    | error e => cases form.logo <;> exact ⟨rfl, rfl, rfl⟩
    | ok addr =>
    simp only []
    cases h8 : serialize METADATA_SCHEMA (metadataArgs form.name form.symbol (ipfsUrl path)) with
    | error e => cases form.logo <;> exact ⟨rfl, rfl, rfl⟩
    | ok buf =>
    simp only []
    cases h9 : env.sendTransaction
        (Transaction.mk [createMetadataInstruction addr.1 mint pk buf]) with
    | error e => cases form.logo <;> exact ⟨rfl, rfl, rfl⟩
    | ok sig =>
    simp only []
    cases h10 : env.confirmTransaction sig "confirmed" <;>
      cases form.logo <;> exact ⟨rfl, rfl, rfl⟩
  exact ⟨main.1, hfreeze, main.2.1, main.2.2⟩

/-- The witness of C9: the sample submission (decimals 9, supply 1000000000,
no freeze authority). -/
theorem C9_provisioning_arguments_witness :
    callsOfKind .createMint (issuance sampleEnv sampleForm []) =
      [.createMint issuerKey issuerKey none 9] ∧
    callsOfKind .mintTo (issuance sampleEnv sampleForm []) =
      [.mintTo issuerKey mintKey holdingKey issuerKey 1000000000] :=
  have h := C9_provisioning_arguments sampleEnv sampleForm [] issuerKey none mintKey holdingKey
    rfl ⟨⟨20000000, rfl, by decide⟩, rfl, rfl⟩ rfl
  ⟨h.1, h.2.2.2⟩

/-- C4: the bytes `serialize` produces for the arguments the handler builds
(any name, symbol and uri, fee 500, no creators) decode under the same schema
to exactly those arguments, with no byte left over; and bytes are produced
whenever the three strings fit their 32-bit length prefix. -/
theorem C4_metadata_roundtrip (name symbol uri : String) :
    (∀ bytes, serialize METADATA_SCHEMA (metadataArgs name symbol uri) = .ok bytes →
      deserialize bytes = .ok (metadataArgs name symbol uri)) ∧
    ((utf8Encode name).length < 2 ^ 32 → (utf8Encode symbol).length < 2 ^ 32 →
      (utf8Encode uri).length < 2 ^ 32 →
      ∃ bytes, serialize METADATA_SCHEMA (metadataArgs name symbol uri) = .ok bytes ∧
        deserialize bytes = .ok (metadataArgs name symbol uri)) := by
  refine ⟨fun bytes h => deserialize_serialize _ bytes h, fun hn hs hu => ?_⟩
  have h := serialize_metadataArgs name symbol uri hn hs hu
  exact ⟨_, h, deserialize_serialize _ _ h⟩

/-- The witness of C4: name "Foo", symbol "FOO", uri "https://example/1". -/
theorem C4_metadata_roundtrip_witness :
    ∃ bytes, serialize METADATA_SCHEMA (metadataArgs "Foo" "FOO" "https://example/1") =
        .ok bytes ∧
      deserialize bytes =
        .ok { name := "Foo", symbol := "FOO", uri := "https://example/1",
              sellerFeeBasisPoints := 500, creators := none } :=
  (C4_metadata_roundtrip "Foo" "FOO" "https://example/1").2 (by decide) (by decide) (by decide)

/-- C5: for a name, a symbol and a uri of fewer than 2^32 UTF-8 bytes each, the
encoded arguments are, in order, the 32-bit little-endian byte count of the
name and its UTF-8 bytes, the same for the symbol and for the uri, the bytes
F4 01 (500 as a 16-bit little-endian number) and the tag byte 00 of the absent
creators; that is 15 bytes plus the three UTF-8 byte counts. These bytes are the
data of the instruction built from them. -/
theorem C5_wire_layout (name symbol uri : String)
    (hn : (utf8Encode name).length < 2 ^ 32) (hs : (utf8Encode symbol).length < 2 ^ 32)
    (hu : (utf8Encode uri).length < 2 ^ 32) :
    ∃ data, serialize METADATA_SCHEMA (metadataArgs name symbol uri) = .ok data ∧
      data = u32le (utf8Encode name).length ++ utf8Encode name ++
        u32le (utf8Encode symbol).length ++ utf8Encode symbol ++
        u32le (utf8Encode uri).length ++ utf8Encode uri ++ [0xF4, 0x01] ++ [0x00] ∧
      data.length = 15 + (utf8Encode name).length + (utf8Encode symbol).length +
        (utf8Encode uri).length ∧
      ∀ metadataAccount mint publicKey,
        (createMetadataInstruction metadataAccount mint publicKey data).data = data := by
  have h := serialize_metadataArgs name symbol uri hn hs hu
  refine ⟨_, h, ?_, ?_, fun _ _ _ => rfl⟩
  · simp [leBytes_four, u32le]
  · simp [leBytes_length]
    omega

/-- The witness of C5: name "Foo", symbol "FOO", uri "https://example/1" encode
to 38 bytes. -/
theorem C5_wire_layout_witness :
    ∃ data, serialize METADATA_SCHEMA (metadataArgs "Foo" "FOO" "https://example/1") =
        .ok data ∧ data.length = 38 :=
  match C5_wire_layout "Foo" "FOO" "https://example/1" (by decide) (by decide) (by decide) with
  | ⟨data, h, _, hlen, _⟩ => ⟨data, h, hlen.trans (by decide)⟩

theorem sentTransactions_issuance (env : Env) (form : Form) (sched : List Bool) :
    sentTransactions (issuance env form sched) = sentTransactions (handleSubmit env form) :=
  filterMap_issuance _ (fun _ => rfl) (fun _ => rfl) (fun _ => rfl) env form sched

/-- C6: in every issuance that gets as far as building the instruction, the
metadata address is derived from the seeds "metadata", the bytes of the
metadata program id and the bytes of the mint created in this issuance, and
exactly one transaction is handed to the wallet: it holds the one instruction,
addressed to the metadata program, whose accounts are, in order, the derived
metadata address (writable, not a signer), the mint (writable, not a signer),
the issuer (read-only, signer) and the system program (read-only, not a
signer), and whose data are the encoded arguments. -/
theorem C6_metadata_instruction (env : Env) (form : Form) (sched : List Bool)
    (pk : PublicKey) (fk : Option PublicKey) (mint acct : PublicKey) (path : String)
    (addr : PublicKey × Nat) (buf : List Nat)
    (hpk : form.publicKey = some pk)
    (hbuilt : InstructionBuilt env form pk fk mint acct path addr buf) :
    Event.findProgramAddress
        [utf8Encode "metadata", TOKEN_METADATA_PROGRAM_ID.toBuffer, mint.toBuffer]
        TOKEN_METADATA_PROGRAM_ID ∈ issuance env form sched ∧
    sentTransactions (issuance env form sched) =
      [{ instructions :=
          [{ keys :=
              [{ pubkey := addr.1, isSigner := false, isWritable := true },
               { pubkey := mint, isSigner := false, isWritable := true },
               { pubkey := pk, isSigner := true, isWritable := false },
               { pubkey := SystemProgram.programId, isSigner := false, isWritable := false }],
             programId := TOKEN_METADATA_PROGRAM_ID,
             data := buf }] }] := by
  obtain ⟨⟨⟨⟨⟨b, hbal, hnlt⟩, hfk, hmint⟩, hacct, hmintTo⟩, hpin⟩, haddr, hbuf⟩ := hbuilt
  simp only [document] at hpin
  have shape : ∃ tail, handleSubmit env form =
      upToSend form pk fk mint acct path addr buf ++ tail ∧ sentTransactions tail = [] := by
    unfold handleSubmit tryBlock
    simp only [hpk, after, hbal, hnlt, if_false, hfk, hmint, hacct, hmintTo, hpin, haddr, hbuf]
    cases h9 : env.sendTransaction
        (Transaction.mk [createMetadataInstruction addr.1 mint pk buf]) with
    | error e =>
      refine ⟨catchEvents e, ?_, rfl⟩
      simp [upToBalance, upToMint, upToAccount, upToMintTo, upToPin, upToDerive, upToSend,
        readEvents, document, metadataTransaction, catchEvents]
    | ok sig =>
      simp only []
      cases h10 : env.confirmTransaction sig "confirmed" with
      | error e =>
        refine ⟨.confirmTransaction sig "confirmed" :: catchEvents e, ?_, rfl⟩
        simp [upToBalance, upToMint, upToAccount, upToMintTo, upToPin, upToDerive, upToSend,
          readEvents, document, metadataTransaction, catchEvents]
      | ok u =>
        refine ⟨.confirmTransaction sig "confirmed" :: successEvents sig, ?_, rfl⟩
        simp [upToBalance, upToMint, upToAccount, upToMintTo, upToPin, upToDerive, upToSend,
          readEvents, document, metadataTransaction, successEvents]
  obtain ⟨tail, hshape, htail⟩ := shape
  constructor
  · apply mem_issuance_of_mem_handleSubmit
    rw [hshape]
    simp [upToSend, upToDerive, metadataSeeds]
  · rw [sentTransactions_issuance, hshape]
    have happ : ∀ l₁ l₂ : List Event,
        sentTransactions (l₁ ++ l₂) = sentTransactions l₁ ++ sentTransactions l₂ := by
      intro l₁ l₂; simp [sentTransactions]
    rw [happ, htail]
    cases hl : form.logo <;>
      simp [sentTransactions, upToBalance, upToMint, upToAccount, upToMintTo, upToPin,
        upToDerive, upToSend, readEvents, hl, metadataTransaction, createMetadataInstruction]

/-- The witness of C6: the sample submission, on the sample collaborators. -/
theorem C6_metadata_instruction_witness :
    sentTransactions (issuance sampleEnv sampleForm []) =
      [{ instructions :=
          [{ keys :=
              [{ pubkey := metadataKey, isSigner := false, isWritable := true },
               { pubkey := mintKey, isSigner := false, isWritable := true },
               { pubkey := issuerKey, isSigner := true, isWritable := false },
               { pubkey := SystemProgram.programId, isSigner := false, isWritable := false }],
             programId := TOKEN_METADATA_PROGRAM_ID,
             data := [3, 0, 0, 0, 70, 111, 111, 3, 0, 0, 0, 70, 79, 79, 38, 0, 0, 0,
               104, 116, 116, 112, 115, 58, 47, 47, 105, 112, 102, 115, 46, 105, 110, 102,
               117, 114, 97, 46, 105, 111, 47, 105, 112, 102, 115, 47, 81, 109, 68, 111, 99,
               117, 109, 101, 110, 116, 244, 1, 0] }] }] :=
  (C6_metadata_instruction sampleEnv sampleForm [] issuerKey none mintKey holdingKey
    "QmDocument" (metadataKey, 255) _ rfl
    ⟨⟨⟨⟨⟨20000000, rfl, by decide⟩, rfl, rfl⟩, rfl, rfl⟩, rfl⟩, rfl, rfl⟩).2

theorem mem_dropLast_of_split {α : Type} (pre post : List α) (e : α) (h : post ≠ []) :
    e ∈ (pre ++ e :: post).dropLast := by
  rw [List.dropLast_append_of_ne_nil _ (by simp), List.dropLast_cons_of_ne_nil h]
  simp

theorem fullSequence_nodup : fullSequence.Nodup := by decide

/-- The calls of a run without an image: a prefix of the full sequence, none
but the last of which failed; and the full sequence unless the balance was
low or a step threw. -/
theorem path_calls (env : Env) (form : Form) (pk : PublicKey) (T : List Event)
    (o : Option (Step × String)) (hlogo : form.logo = none) (hp : Path env form pk T o) :
    callKinds T <+: fullSequence ∧
    (∀ e ∈ (calls T).dropLast, failed env e = false) ∧
    ((∀ e ∈ calls T, failed env e = false) →
      (∃ b, env.getBalance pk = .ok b ∧ 20000000 ≤ b) →
      (∃ fk, freezeAuthorityKey env form = .ok fk) →
      (∀ path, env.ipfsAdd (.json (document form)) = .ok path →
        ∃ buf, serialize METADATA_SCHEMA
          (metadataArgs form.name form.symbol (ipfsUrl path)) = .ok buf) →
      callKinds T = fullSequence) := by
  cases hp with
  | @balanceQueryFailed e h1 =>
    refine ⟨by simp [callKinds, callKind, upToBalance, catchEvents]; decide,
      by simp [calls, callKind, upToBalance, catchEvents], ?_⟩
    intro hok
    have := hok (.getBalance pk) (by simp [calls, callKind, upToBalance, catchEvents])
    simp [failed, isError, h1] at this
  | @insufficientBalance b h1 hlt =>
    refine ⟨by simp [callKinds, callKind, upToBalance]; decide,
      by simp [calls, callKind, upToBalance], ?_⟩
    rintro - ⟨b, hb, hge⟩
    rw [h1] at hb
    cases hb
    rw [requiredBalance_eq] at hlt
    omega
  | @freezeAuthorityInvalid e s1 h2 =>
    refine ⟨by simp [callKinds, callKind, upToBalance, catchEvents]; decide,
      by simp [calls, callKind, upToBalance, catchEvents], ?_⟩
    rintro - - ⟨fk, hfk⟩
    rw [h2] at hfk
    cases hfk
  | @createMintFailed fk e s1 h2 h3 =>
    obtain ⟨b, hb, hnlt⟩ := s1
    refine ⟨by simp [callKinds, callKind, upToBalance, upToMint, catchEvents]; decide, ?_, ?_⟩
    · simp [calls, callKind, upToBalance, upToMint, catchEvents, failed, isError, hb]
    · intro hok
      have := hok (.createMint pk pk fk form.decimals)
        (by simp [calls, callKind, upToBalance, upToMint, catchEvents])
      simp [failed, isError, h3] at this
  | @createAccountFailed fk mint e s2 h4 =>
    obtain ⟨⟨b, hb, hnlt⟩, h2, h3⟩ := s2
    refine ⟨by simp [callKinds, callKind, upToBalance, upToMint, upToAccount, upToMintTo,
      catchEvents]; decide, ?_, ?_⟩
    · simp [calls, callKind, upToBalance, upToMint, upToAccount, catchEvents, failed, isError,
        hb, h3]
    · intro hok
      have := hok (.createAccount pk mint pk)
        (by simp [calls, callKind, upToBalance, upToMint, upToAccount, catchEvents])
      simp [failed, isError, h4] at this
  | @mintToFailed fk mint acct e s2 h4 h5 =>
    obtain ⟨⟨b, hb, hnlt⟩, h2, h3⟩ := s2
    refine ⟨by simp [callKinds, callKind, upToBalance, upToMint, upToAccount, upToMintTo,
      catchEvents]; decide, ?_, ?_⟩
    · simp [calls, callKind, upToBalance, upToMint, upToAccount, upToMintTo, catchEvents,
        failed, isError, hb, h3, h4]
    · intro hok
      have := hok (.mintTo pk mint acct pk form.supply)
        (by simp [calls, callKind, upToBalance, upToMint, upToAccount, upToMintTo, catchEvents])
      simp [failed, isError, h5] at this
  | @pinFailed fk mint acct e s3 h6 =>
    obtain ⟨⟨⟨b, hb, hnlt⟩, h2, h3⟩, h4, h5⟩ := s3
    refine ⟨by simp [callKinds, callKind, upToBalance, upToMint, upToAccount, upToMintTo,
      upToPin, readEvents, hlogo, catchEvents]; decide, ?_, ?_⟩
    · simp [calls, callKind, upToBalance, upToMint, upToAccount, upToMintTo, upToPin,
        readEvents, hlogo, catchEvents, failed, isError, hb, h3, h4, h5]
    · intro hok
      have := hok (.ipfsAdd (.json (document form)))
        (by simp [calls, callKind, upToBalance, upToMint, upToAccount, upToMintTo, upToPin,
          readEvents, hlogo, catchEvents])
      simp [failed, isError, h6] at this
  | @deriveFailed fk mint acct path e s4 h7 =>
    obtain ⟨⟨⟨⟨b, hb, hnlt⟩, h2, h3⟩, h4, h5⟩, h6⟩ := s4
    refine ⟨by simp [callKinds, callKind, upToBalance, upToMint, upToAccount, upToMintTo,
      upToPin, upToDerive, readEvents, hlogo, catchEvents]; decide, ?_, ?_⟩
    · simp [calls, callKind, upToBalance, upToMint, upToAccount, upToMintTo, upToPin,
        upToDerive, readEvents, hlogo, catchEvents, failed, isError, hb, h3, h4, h5, h6]
    · intro hok
      have := hok (.findProgramAddress (metadataSeeds mint) TOKEN_METADATA_PROGRAM_ID)
        (by simp [calls, callKind, upToBalance, upToMint, upToAccount, upToMintTo, upToPin,
          upToDerive, readEvents, hlogo, catchEvents])
      simp [failed, isError, h7] at this
  | @encodeFailed fk mint acct path e addr s4 h7 h8 =>
    obtain ⟨⟨⟨⟨b, hb, hnlt⟩, h2, h3⟩, h4, h5⟩, h6⟩ := s4
    refine ⟨by simp [callKinds, callKind, upToBalance, upToMint, upToAccount, upToMintTo,
      upToPin, upToDerive, readEvents, hlogo, catchEvents]; decide, ?_, ?_⟩
    · simp [calls, callKind, upToBalance, upToMint, upToAccount, upToMintTo, upToPin,
        upToDerive, readEvents, hlogo, catchEvents, failed, isError, hb, h3, h4, h5, h6]
    · intro _ _ _ henc
      obtain ⟨buf, hbuf⟩ := henc _ h6
      rw [h8] at hbuf
      cases hbuf
  | @sendFailed fk mint acct path e addr buf s5 h9 =>
    obtain ⟨⟨⟨⟨⟨b, hb, hnlt⟩, h2, h3⟩, h4, h5⟩, h6⟩, h7, h8⟩ := s5
    refine ⟨by simp [callKinds, callKind, upToBalance, upToMint, upToAccount, upToMintTo,
      upToPin, upToDerive, upToSend, readEvents, hlogo, catchEvents]; decide, ?_, ?_⟩
    · simp [calls, callKind, upToBalance, upToMint, upToAccount, upToMintTo, upToPin,
        upToDerive, upToSend, readEvents, hlogo, catchEvents, failed, isError, hb, h3, h4, h5,
        h6, h7]
    · intro hok
      have := hok (.sendTransaction (metadataTransaction addr.1 mint pk buf))
        (by simp [calls, callKind, upToBalance, upToMint, upToAccount, upToMintTo, upToPin,
          upToDerive, upToSend, readEvents, hlogo, catchEvents])
      simp [failed, isError, h9] at this
  | @confirmFailed fk mint acct path sig e addr buf s5 h9 h10 =>
    obtain ⟨⟨⟨⟨⟨b, hb, hnlt⟩, h2, h3⟩, h4, h5⟩, h6⟩, h7, h8⟩ := s5
    refine ⟨by simp [callKinds, callKind, upToBalance, upToMint, upToAccount, upToMintTo,
      upToPin, upToDerive, upToSend, upToConfirm, readEvents, hlogo, catchEvents]; decide,
      ?_, ?_⟩
    · simp [calls, callKind, upToBalance, upToMint, upToAccount, upToMintTo, upToPin,
        upToDerive, upToSend, upToConfirm, readEvents, hlogo, catchEvents, failed, isError,
        hb, h3, h4, h5, h6, h7, h9]
    · intro hok
      have := hok (.confirmTransaction sig "confirmed")
        (by simp [calls, callKind, upToBalance, upToMint, upToAccount, upToMintTo, upToPin,
          upToDerive, upToSend, upToConfirm, readEvents, hlogo, catchEvents])
      simp [failed, isError, h10] at this
  | @confirmed fk mint acct path sig addr buf s5 h9 h10 =>
    obtain ⟨⟨⟨⟨⟨b, hb, hnlt⟩, h2, h3⟩, h4, h5⟩, h6⟩, h7, h8⟩ := s5
    have hk : callKinds (upToConfirm form pk fk mint acct path addr buf sig ++ successEvents sig) =
        fullSequence := by
      simp [callKinds, callKind, upToBalance, upToMint, upToAccount, upToMintTo,
        upToPin, upToDerive, upToSend, upToConfirm, readEvents, hlogo, successEvents,
        fullSequence]
    refine ⟨by rw [hk], ?_, fun _ _ _ _ => hk⟩
    simp [calls, callKind, upToBalance, upToMint, upToAccount, upToMintTo, upToPin,
      upToDerive, upToSend, upToConfirm, readEvents, hlogo, successEvents, failed, isError,
      hb, h3, h4, h5, h6, h7, h9]

/-- C7, amended: for a submission with a connected wallet and no image, the
calls made are a prefix of the full sequence (balance query, mint creation,
account creation, minting, document upload, address derivation, sending,
confirmation), each made at most once, and no call follows a failed call; the
sequence is the full one when no call fails, the balance is at least
20,000,000 lamports, the freeze authority field is empty or parses as a public
key, and the name, the symbol and the metadata uri have fewer than 2^32 UTF-8
bytes each. -/
theorem C7_sequential_abort (env : Env) (form : Form) (sched : List Bool) (pk : PublicKey)
    (hpk : form.publicKey = some pk) (hlogo : form.logo = none) :
    callKinds (issuance env form sched) <+: fullSequence ∧
    (callKinds (issuance env form sched)).Nodup ∧
    (∀ pre e post, calls (issuance env form sched) = pre ++ e :: post →
      failed env e = true → post = []) ∧
    ((∀ e ∈ calls (issuance env form sched), failed env e = false) →
      (∃ b, env.getBalance pk = .ok b ∧ 20000000 ≤ b) →
      (∃ fk, freezeAuthorityKey env form = .ok fk) →
      (utf8Encode form.name).length < 2 ^ 32 →
      (utf8Encode form.symbol).length < 2 ^ 32 →
      (∀ path, env.ipfsAdd (.json (document form)) = .ok path →
        (utf8Encode (ipfsUrl path)).length < 2 ^ 32) →
      callKinds (issuance env form sched) = fullSequence) := by
  rw [issuance_of_logo_none env form sched hlogo]
  obtain ⟨h1, h2, h3⟩ := path_calls env form pk _ _ hlogo (handleSubmit_path env form pk hpk)
  refine ⟨h1, (List.IsPrefix.sublist h1).nodup fullSequence_nodup, ?_, ?_⟩
  · intro pre e post hsplit hfail
    by_contra hne
    have hmem := mem_dropLast_of_split pre post e hne
    rw [← hsplit] at hmem
    rw [h2 e hmem] at hfail
    cases hfail
  · intro hok hbal hfk hn hs hu
    refine h3 hok hbal hfk ?_
    intro path hpath
    exact ⟨_, serialize_metadataArgs form.name form.symbol (ipfsUrl path) hn hs (hu path hpath)⟩

/-- The witness of C7: the sample submission makes the full sequence of calls. -/
theorem C7_sequential_abort_witness :
    callKinds (issuance sampleEnv sampleForm []) =
      [.getBalance, .createMint, .createAccount, .mintTo, .ipfsAddJson,
       .findProgramAddress, .sendTransaction, .confirmTransaction] :=
  (C7_sequential_abort sampleEnv sampleForm [] issuerKey rfl rfl).2.2.2
    (by decide) ⟨20000000, rfl, by decide⟩ ⟨none, rfl⟩ (by decide) (by decide)
    (fun path h => by
      have hp : "QmDocument" = path := Except.ok.inj h
      subst hp
      decide)

/-- C7 as stated fails: with a freeze authority that is not an address, no call
fails and the balance is sufficient, yet the balance query is the only call. -/
theorem C7_counterexample :
    badFreezeForm.publicKey = some issuerKey ∧ badFreezeForm.logo = none ∧
    sampleEnv.getBalance issuerKey = .ok 20000000 ∧
    (∀ e ∈ calls (issuance sampleEnv badFreezeForm []), failed sampleEnv e = false) ∧
    callKinds (issuance sampleEnv badFreezeForm []) = [.getBalance] ∧
    callKinds (issuance sampleEnv badFreezeForm []) ≠ fullSequence :=
  ⟨rfl, rfl, rfl, by decide, by decide, by decide⟩

/-- C8, amended: a run that fails at one of the handler's own steps raises
exactly one notification: the request to connect a wallet when there is none,
the low-balance message when the balance is below 20,000,000 lamports, and,
when a step of the handler throws (balance query, freeze authority, mint
creation, account creation, minting, document upload, address derivation,
encoding, sending, confirmation), the message of the thrown error, whatever the
step: the notification holds a message and a position, nothing that identifies
the step. A run in which none of these fails raises no notification at all,
also when the image read or upload of the callback fails: that failure is not
reported. -/
theorem C8_single_outcome (env : Env) (form : Form) (sched : List Bool) :
    (form.publicKey = none →
      notifications (issuance env form sched) = [connectWalletState]) ∧
    (∀ pk, form.publicKey = some pk →
      (∀ b, env.getBalance pk = .ok b → b < 20000000 →
        notifications (issuance env form sched) = [insufficientBalanceState]) ∧
      (∀ step msg, firstFailure env form pk = some (step, msg) →
        notifications (issuance env form sched) =
          [{ isOpen := true, message := msg, vertical := "top", horizontal := "center" }]) ∧
      (∀ b, env.getBalance pk = .ok b → 20000000 ≤ b → firstFailure env form pk = none →
        notifications (issuance env form sched) = [])) := by
  refine ⟨?_, ?_⟩
  · intro h
    rw [issuance_disconnected env form sched h]
    rfl
  · intro pk hpk
    rw [notifications_issuance]
    refine ⟨?_, ?_, ?_⟩
    · intro b hb hlt
      rw [handleSubmit_insufficient env form pk b hpk hb (by rw [requiredBalance_eq]; exact hlt)]
      rfl
    · intro step msg hfail
      have hp := handleSubmit_path env form pk hpk
      rw [hfail] at hp
      generalize handleSubmit env form = T at hp
      cases hp <;>
        simp [notifications, upToBalance, upToMint, upToAccount, upToMintTo, upToPin,
          upToDerive, upToSend, upToConfirm, readEvents, catchEvents, errorState] <;>
        cases form.logo <;> simp
    · intro b hb hge hnone
      have hp := handleSubmit_path env form pk hpk
      rw [hnone] at hp
      generalize handleSubmit env form = T at hp
      cases hp with
      | @insufficientBalance b' h1 hlt =>
        rw [hb] at h1
        cases h1
        rw [requiredBalance_eq] at hlt
        omega
      | @confirmed fk mint acct path sig addr buf s5 h9 h10 =>
        cases hl : form.logo <;>
          simp [notifications, upToBalance, upToMint, upToAccount, upToMintTo, upToPin,
            upToDerive, upToSend, upToConfirm, readEvents, hl, successEvents]

/-- The witness of C8: no wallet, a wallet one lamport short, a failing mint
creation, and a run in which only the image upload of the callback fails. -/
theorem C8_single_outcome_witness :
    notifications (issuance sampleEnv disconnectedForm []) = [connectWalletState] ∧
    notifications (issuance lowBalanceEnv sampleForm []) = [insufficientBalanceState] ∧
    notifications (issuance mintFailsEnv sampleForm []) =
      [{ isOpen := true, message := "Network error", vertical := "top",
         horizontal := "center" }] ∧
    notifications (issuance imageFailsEnv imageForm [false, false]) = [] :=
  ⟨(C8_single_outcome sampleEnv disconnectedForm []).1 rfl,
   ((C8_single_outcome lowBalanceEnv sampleForm []).2 issuerKey rfl).1 19999999 rfl
     (by decide),
   ((C8_single_outcome mintFailsEnv sampleForm []).2 issuerKey rfl).2.1 .createMint
     "Network error" rfl,
   ((C8_single_outcome imageFailsEnv imageForm [false, false]).2 issuerKey rfl).2.2
     20000000 rfl (by decide) rfl⟩

/-- C8 as stated fails twice over: a failure of the mint creation and a failure
of the sending, with the same error message, are reported by the same
notification, which therefore does not name the failing step; and a run in
which the image upload fails (its call is in the trace and the collaborator
fails it) reports no outcome at all. -/
theorem C8_counterexample :
    firstFailure mintFailsEnv sampleForm issuerKey = some (.createMint, "Network error") ∧
    firstFailure sendFailsEnv sampleForm issuerKey =
      some (.sendTransaction, "Network error") ∧
    notifications (issuance mintFailsEnv sampleForm []) =
      notifications (issuance sendFailsEnv sampleForm []) ∧
    Event.ipfsAdd (.buffer [137, 80, 78, 71]) ∈
      issuance imageFailsEnv imageForm [false, false] ∧
    failed imageFailsEnv (.ipfsAdd (.buffer [137, 80, 78, 71])) = true ∧
    notifications (issuance imageFailsEnv imageForm [false, false]) = [] :=
  ⟨rfl, rfl, by decide, by decide, rfl, by decide⟩

theorem pendingRead_isSome_of_mem (T : List Event) (logo : File)
    (h : Event.readAsArrayBuffer logo ∈ T) : ∃ l, pendingRead T = some l := by
  induction T with
  | nil => simp at h
  | cons e es ih =>
    cases e <;> simp [pendingRead] at h ⊢
    all_goals exact ih h

/-- The only read the handler starts is the read of the image of the form. -/
theorem pendingRead_handleSubmit (env : Env) (form : Form) (l : File)
    (h : pendingRead (handleSubmit env form) = some l) : form.logo = some l := by
  cases hpk : form.publicKey with
  | none => simp [handleSubmit_disconnected env form hpk, pendingRead] at h
  | some pk =>
    have hp := handleSubmit_path env form pk hpk
    generalize handleSubmit env form = T at hp h
    generalize firstFailure env form pk = o at hp
    cases hlogo : form.logo with
    | none =>
      cases hp <;>
        simp [upToBalance, upToMint, upToAccount, upToMintTo, upToPin, upToDerive, upToSend,
          upToConfirm, readEvents, hlogo, catchEvents, successEvents, pendingRead] at h
    | some logo =>
      cases hp <;>
        simp [upToBalance, upToMint, upToAccount, upToMintTo, upToPin, upToDerive, upToSend,
          upToConfirm, readEvents, hlogo, catchEvents, successEvents, pendingRead] at h <;>
        simp [h]

/-- C3, amended: when an image is present and its upload fails, the failure is
caught in the upload callback and logged to the console; it raises no
notification and does not stop the issuance: in every run in which the image
read is started, the failed upload is followed by its console message, the
notifications raised are exactly that of the first failing step of the handler
itself, if there is one, and when no step of the handler fails the metadata
transaction is handed to the wallet and its confirmation awaited. -/
theorem C3_image_failure_only_logged (env : Env) (form : Form) (sched : List Bool)
    (pk : PublicKey) (logo : File) (buf : List Nat) (msg : String)
    (hpk : form.publicKey = some pk) (hlogo : form.logo = some logo)
    (hread : env.readAsArrayBuffer logo = .ok buf)
    (hfail : env.ipfsAdd (.buffer buf) = .error msg)
    (hstart : Event.readAsArrayBuffer logo ∈ issuance env form sched) :
    Event.ipfsAdd (.buffer buf) ∈ issuance env form sched ∧
    failed env (.ipfsAdd (.buffer buf)) = true ∧
    Event.consoleError ["Error uploading image to IPFS:", msg] ∈ issuance env form sched ∧
    notifications (issuance env form sched) =
      (match firstFailure env form pk with
       | some (_, m) => [errorState m]
       | none => []) ∧
    (firstFailure env form pk = none →
      ∃ tx sig, sentTransactions (issuance env form sched) = [tx] ∧
        env.sendTransaction tx = .ok sig ∧
        Event.confirmTransaction sig "confirmed" ∈ issuance env form sched) := by
  have hmem' := mem_handleSubmit_of_mem_issuance env form sched _ hstart
    (by intro b; simp) (by intro a; simp) (by intro a; simp)
  obtain ⟨l, hl⟩ := pendingRead_isSome_of_mem _ logo hmem'
  have hl' := pendingRead_handleSubmit env form l hl
  rw [hlogo] at hl'
  cases hl'
  have hcb : (onloadend env logo).1 =
      [.ipfsAdd (.buffer buf), .consoleError ["Error uploading image to IPFS:", msg]] := by
    simp [onloadend, hread, hfail, after]
  have hin : ∀ e ∈ (onloadend env logo).1, e ∈ issuance env form sched := by
    intro e he
    unfold issuance
    simp only [hl, List.mem_append, mem_merge]
    exact Or.inr (Or.inr he)
  refine ⟨hin _ (by simp [hcb]), by simp [failed, isError, hfail], hin _ (by simp [hcb]),
    ?_, ?_⟩
  · rw [notifications_issuance]
    have hp := handleSubmit_path env form pk hpk
    generalize handleSubmit env form = T at hp hmem'
    generalize firstFailure env form pk = o at hp
    cases hp <;>
      simp [notifications, upToBalance, upToMint, upToAccount, upToMintTo, upToPin,
        upToDerive, upToSend, upToConfirm, readEvents, hlogo, catchEvents, successEvents]
        at hmem' ⊢
  · intro hnone
    have hp := handleSubmit_path env form pk hpk
    rw [hnone] at hp
    have hsub : ∀ e ∈ handleSubmit env form, e ∈ issuance env form sched :=
      fun e he => mem_issuance_of_mem_handleSubmit env form sched e he
    rw [sentTransactions_issuance]
    generalize handleSubmit env form = T at hp hmem' hsub
    cases hp with
    | @insufficientBalance b h1 hlt =>
      simp [upToBalance] at hmem'
    | @confirmed fk mint acct path sig addr data s5 h9 h10 =>
      refine ⟨metadataTransaction addr.1 mint pk data, sig, ?_, h9, ?_⟩
      · simp [sentTransactions, upToBalance, upToMint, upToAccount, upToMintTo, upToPin,
          upToDerive, upToSend, upToConfirm, readEvents, hlogo, successEvents]
      · apply hsub
        simp [upToConfirm]

/-- The witness of C3: the sample submission with an image, on collaborators
whose image upload fails: the upload is made and fails, nothing is reported, and
the transaction is sent. -/
theorem C3_image_failure_only_logged_witness :
    Event.ipfsAdd (.buffer [137, 80, 78, 71]) ∈
      issuance imageFailsEnv imageForm [false, false] ∧
    failed imageFailsEnv (.ipfsAdd (.buffer [137, 80, 78, 71])) = true ∧
    Event.consoleError ["Error uploading image to IPFS:", "Network error"] ∈
      issuance imageFailsEnv imageForm [false, false] ∧
    notifications (issuance imageFailsEnv imageForm [false, false]) = [] ∧
    ∃ tx sig, sentTransactions (issuance imageFailsEnv imageForm [false, false]) = [tx] ∧
      imageFailsEnv.sendTransaction tx = .ok sig ∧
      Event.confirmTransaction sig "confirmed" ∈
        issuance imageFailsEnv imageForm [false, false] :=
  have h := C3_image_failure_only_logged imageFailsEnv imageForm [false, false] issuerKey
    ⟨"logo.png"⟩ [137, 80, 78, 71] "Network error" rfl rfl rfl rfl (by decide)
  ⟨h.1, h.2.1, h.2.2.1, h.2.2.2.1, h.2.2.2.2 rfl⟩

/-- C3 as stated fails: the image upload fails (event 7 of the run), no
notification is ever raised, and the handler goes on to derive the address and
to send and confirm the transaction. -/
theorem C3_counterexample :
    imageForm.logo = some ⟨"logo.png"⟩ ∧
    (issuance imageFailsEnv imageForm [false, false]).get? 7 =
      some (.ipfsAdd (.buffer [137, 80, 78, 71])) ∧
    failed imageFailsEnv (.ipfsAdd (.buffer [137, 80, 78, 71])) = true ∧
    callKinds ((issuance imageFailsEnv imageForm [false, false]).drop 8) =
      [.findProgramAddress, .sendTransaction, .confirmTransaction] ∧
    notifications (issuance imageFailsEnv imageForm [false, false]) = [] :=
  ⟨rfl, by decide, rfl, by decide, by decide⟩

/-- C2, where the code departs from it: in the sample submission with an
image, whose upload succeeds, the document is uploaded with an empty image
field before the image upload is even made, whatever the schedule. -/
theorem C2_document_pinned_before_image (sched : List Bool) :
    ∃ pre post, issuance sampleEnv imageForm sched =
        pre ++ Event.ipfsAdd (.json (document imageForm)) :: post ∧
      document imageForm =
        { name := "Foo", symbol := "FOO", description := "A sample token", image := "" } ∧
      (∀ b, Event.ipfsAdd (.buffer b) ∉ pre) ∧
      Event.ipfsAdd (.buffer [137, 80, 78, 71]) ∈ post ∧
      Event.consoleLog ["Image uploaded to IPFS:", "https://ipfs.infura.io/ipfs/QmImage"] ∈ post := by
  have hT : handleSubmit sampleEnv imageForm =
      [.setIsLoading true, .getBalance issuerKey, .createMint issuerKey issuerKey none 9,
       .createAccount issuerKey mintKey issuerKey,
       .mintTo issuerKey mintKey holdingKey issuerKey 1000000000,
       .readAsArrayBuffer ⟨"logo.png"⟩,
       .ipfsAdd (.json (document imageForm))] ++
      (splitAfter isPinJson (handleSubmit sampleEnv imageForm)).2 := by
    decide
  have hcb : (onloadend sampleEnv ⟨"logo.png"⟩).1 =
      [.ipfsAdd (.buffer [137, 80, 78, 71]),
       .consoleLog ["Image uploaded to IPFS:", "https://ipfs.infura.io/ipfs/QmImage"]] := by
    decide
  have hpend : pendingRead (handleSubmit sampleEnv imageForm) = some ⟨"logo.png"⟩ := by decide
  have hpre : (splitAfter isPinJson (handleSubmit sampleEnv imageForm)).1 =
      [.setIsLoading true, .getBalance issuerKey, .createMint issuerKey issuerKey none 9,
       .createAccount issuerKey mintKey issuerKey,
       .mintTo issuerKey mintKey holdingKey issuerKey 1000000000,
       .readAsArrayBuffer ⟨"logo.png"⟩,
       .ipfsAdd (.json (document imageForm))] := by
    decide
  refine ⟨[.setIsLoading true, .getBalance issuerKey, .createMint issuerKey issuerKey none 9,
       .createAccount issuerKey mintKey issuerKey,
       .mintTo issuerKey mintKey holdingKey issuerKey 1000000000,
       .readAsArrayBuffer ⟨"logo.png"⟩],
    merge sched (splitAfter isPinJson (handleSubmit sampleEnv imageForm)).2
      (onloadend sampleEnv ⟨"logo.png"⟩).1, ?_, rfl, ?_, ?_, ?_⟩
  · unfold issuance
    simp only [hpend, hpre]
    rfl
  · intro b
    simp
  · rw [mem_merge, hcb]
    simp
  · rw [mem_merge, hcb]
    simp

end TokenLaunchpad
